import Mathlib

set_option maxHeartbeats 1000000

/-!
Verification development for the glyph-decluttering engine of the
sound-source visualization repository.

The embedding follows the JavaScript source:
* the greedy overlap filter `filterOverlappingRosesGreedy`, its pairwise
  intersection matrix and its hidden-count attribution;
* the k-means output reduction `filterOverlappingRosesKmeans` with its
  three-tier cache (static file, localStorage, fresh computation);
* the k-means worker protocol: `splitData` / `combineData` /
  `classifyData`, the centroid mover `moveCenters`, and the weighted
  seeding helpers `generateWeightedList` / `randomIndex`.

Numbers are modelled by `ℚ`.  The float library calls of the host
(`Math.cos`, `Math.sqrt`, `Math.acos`) enter the embedding as function
parameters (`overlap`, `area`) where their values matter, and are dropped
where only the induced ordering matters (`Math.sqrt` is strictly monotone,
so nearest-point selections are computed on squared distances).
Dictionaries are modelled by insertion-ordered association lists, arrays
by lists, and the random draws and worker nondeterminism by explicit
parameters.
-/

/-- One record of the input `dataArray`: sensor id and WGS84 position.
Renderer-only fields of the JS records are opaque to the engine and
omitted. -/
structure Sensor where
  sensor : String
  latitude : ℚ
  longitude : ℚ
deriving DecidableEq, Repr

/-- The selection result shape returned by both filters
(`filteredOutSensors`, `filteredInSensors`, `hiddenCountsMap`). -/
structure FilterResult where
  filteredOutSensors : List String
  filteredInSensors : List String
  hiddenCountsMap : List (String × Nat)
deriving DecidableEq, Repr

/-- Lookup in an insertion-ordered association list (JS object / Map
property read). -/
def lookupA {α β : Type} [DecidableEq α] : List (α × β) → α → Option β
  | [], _ => none
  | (k, v) :: t, x => if k = x then some v else lookupA t x

/-- `dataArray.find` by sensor id; with unique ids this identifies the
record a dictionary key refers to. -/
def findSensor (dataArray : List Sensor) (sid : String) : Option Sensor :=
  dataArray.find? (fun s => s.sensor == sid)

/-- Step 1 of `filterOverlappingRosesGreedy`: the pairwise intersection
matrix.  `intersectMatrix[x][y]` holds `area a b` exactly when the two
records are distinct (`i !== j`, which for unique ids is `x ≠ y`),
`isOverlapping` holds and the area is positive; a lookup of an absent
entry yields `0` (the JS `|| 0`).  The geometric predicates
`isOverlapping` and `calculateIntersectionArea` compute with host floats
(`Math.cos`, `Math.sqrt`, `Math.acos`) and are therefore parameters. -/
def intersectMatrix (overlap : Sensor → Sensor → Bool) (area : Sensor → Sensor → ℚ)
    (dataArray : List Sensor) (x y : String) : ℚ :=
  match findSensor dataArray x, findSensor dataArray y with
  | some a, some b => if x ≠ y ∧ overlap a b ∧ 0 < area a b then area a b else 0
  | _, _ => 0

/-- Total conflict score of sensor `s` against the current working set
(`totalIntersectionArea[s]` in the source). -/
def totalIntersectionArea (m : String → String → ℚ) (working : List String)
    (s : String) : ℚ :=
  working.foldl (fun acc other => if s ≠ other then acc + m s other else acc) 0

/-- The maximum search of the greedy loop: starts from
`maxSensor = null, maxArea = -1` and replaces the pair whenever the score
is strictly greater. -/
def pickMax (score : String → ℚ) (l : List String) : Option String × ℚ :=
  l.foldl (fun acc s => if acc.2 < score s then (some s, score s) else acc) (none, -1)

/-- Filter condition applied to the working set after `maxSensor` is
picked: keep `s` when `s === maxSensor` or neither stored direction of
the matrix is truthy. -/
def keepAfterPick (m : String → String → ℚ) (maxS s : String) : Bool :=
  s == maxS || !(decide (m maxS s ≠ 0) || decide (m s maxS ≠ 0))

/-- Step 3 of `filterOverlappingRosesGreedy`: the
`while (filteredInSensors.length > 0)` loop.  Returns the `selected`
accumulator together with the final working set.  The source breaks when
the maximum search yields no sensor (`!maxSensor`) or a zero score. -/
def greedyLoop (m : String → String → ℚ) (working selected : List String) :
    List String × List String :=
  if working = [] then (selected, working)
  else
    match hpick : pickMax (totalIntersectionArea m working) working with
    | (none, _) => (selected, working)
    | (some maxS, maxArea) =>
      if maxArea = 0 then (selected, working)
      else
        greedyLoop m (working.filter (keepAfterPick m maxS)) (selected ++ [maxS])
termination_by working.length
decreasing_by
  rename_i hne
  have haux : ∀ (score : String → ℚ) (l : List String) (acc : Option String × ℚ),
      l.foldl (fun acc s => if acc.2 < score s then (some s, score s) else acc) acc = acc ∨
      ∃ s ∈ l, l.foldl (fun acc s => if acc.2 < score s then (some s, score s) else acc) acc
        = (some s, score s) := by
    intro score l
    induction l with
    | nil => intro acc; left; rfl
    | cons x t ih =>
      intro acc
      simp only [List.foldl_cons]
      by_cases hx : acc.2 < score x
      · rw [if_pos hx]
        rcases ih (some x, score x) with h | ⟨s, hs, h⟩
        · right; exact ⟨x, List.mem_cons_self x t, h⟩
        · right; exact ⟨s, List.mem_cons_of_mem x hs, h⟩
      · rw [if_neg hx]
        rcases ih acc with h | ⟨s, hs, h⟩
        · left; exact h
        · right; exact ⟨s, List.mem_cons_of_mem x hs, h⟩
  have hspec : maxS ∈ working ∧ maxArea = totalIntersectionArea m working maxS := by
    rcases haux (totalIntersectionArea m working) working (none, -1) with h0 | ⟨t, ht, h0⟩
    · rw [pickMax] at hpick; rw [h0] at hpick; cases hpick
    · rw [pickMax] at hpick; rw [h0] at hpick
      obtain ⟨h1, h2⟩ := Prod.mk.injEq .. ▸ hpick
      cases h1; exact ⟨ht, h2.symm⟩
  obtain ⟨hmem, harea⟩ := hspec
  have hconf : ∃ t ∈ working, maxS ≠ t ∧ m maxS t ≠ 0 := by
    by_contra hc
    push_neg at hc
    have hzero : totalIntersectionArea m working maxS = 0 := by
      have aux2 : ∀ (l : List String), (∀ t ∈ l, maxS ≠ t → m maxS t = 0) → ∀ acc : ℚ,
          l.foldl (fun acc other => if maxS ≠ other then acc + m maxS other else acc) acc
            = acc := by
        intro l
        induction l with
        | nil => intro _ acc; rfl
        | cons x t ih =>
          intro hl acc
          simp only [List.foldl_cons]
          by_cases hx : maxS ≠ x
          · rw [if_pos hx, hl x (List.mem_cons_self x t) hx, add_zero]
            exact ih (fun u hu => hl u (List.mem_cons_of_mem x hu)) acc
          · rw [if_neg hx]
            exact ih (fun u hu => hl u (List.mem_cons_of_mem x hu)) acc
      exact aux2 working (fun t ht hst => hc t ht hst) 0
    exact hne (harea.trans hzero)
  obtain ⟨t, ht, hst, hm⟩ := hconf
  apply List.length_filter_lt_length_iff_exists.mpr
  refine ⟨t, ht, ?_⟩
  simp only [keepAfterPick, Bool.or_eq_true, beq_iff_eq, decide_eq_true_eq,
    Bool.not_eq_true', Bool.or_eq_false_iff, decide_eq_false_iff_not, not_not, not_or]
  exact ⟨fun h => hst h.symm, fun h => (hm h.1).elim⟩

/-- The pre-filtering of step 2: when `curPresentSensors` is supplied,
drop every sensor with a truthy matrix entry against some present
sensor. -/
def initialWorking (m : String → String → ℚ) (allSensors : List String)
    (curPresentSensors : Option (List String)) : List String :=
  match curPresentSensors with
  | none => allSensors
  | some present =>
    allSensors.filter (fun sensor =>
      !(present.any (fun p => decide (m sensor p ≠ 0) || decide (m p sensor ≠ 0))))

/-- Area lookup of step 4:
`intersectMatrix[visible]?.[hidden] || intersectMatrix[hidden]?.[visible] || 0`. -/
def areaLookup (m : String → String → ℚ) (v h : String) : ℚ :=
  if m v h ≠ 0 then m v h else m h v

/-- Update of `hiddenToBestVisible[hidden]`: create the entry when absent,
replace it in place when the new area is strictly larger. -/
def updateBest (l : List (String × String × ℚ)) (h v : String) (a : ℚ) :
    List (String × String × ℚ) :=
  match lookupA l h with
  | none => l ++ [(h, v, a)]
  | some (_, a0) => if a0 < a then l.map (fun e => if e.1 = h then (h, v, a) else e) else l

/-- The nested loops of step 4 building `hiddenToBestVisible`: outer over
the visible sensors, inner over the hidden ones; only positive areas are
considered. -/
def hiddenToBestVisible (m : String → String → ℚ) (visibles hiddens : List String) :
    List (String × String × ℚ) :=
  visibles.foldl (fun acc visible =>
    hiddens.foldl (fun acc2 hidden =>
      let area := areaLookup m visible hidden
      if 0 < area then updateBest acc2 hidden visible area else acc2) acc) []

/-- Increment-or-create on the counting object
(`hiddenCountsMap[visible] = (hiddenCountsMap[visible] || 0) + 1`). -/
def bumpCount (acc : List (String × Nat)) (k : String) : List (String × Nat) :=
  match lookupA acc k with
  | none => acc ++ [(k, 1)]
  | some n => acc.map (fun e => if e.1 = k then (k, n + 1) else e)

/-- The two final loops of step 4: count one per attributed hidden sensor,
then add one to every existing entry (self-inclusion). -/
def buildHiddenCounts (best : List (String × String × ℚ)) : List (String × Nat) :=
  (best.foldl (fun acc e => bumpCount acc e.2.1) []).map (fun e => (e.1, e.2 + 1))

/-- `filterOverlappingRosesGreedy(dataArray, radius, curPresentSensors)`.
The geometry (`isOverlapping`, `calculateIntersectionArea`, both float
computations on the shared `radius`) is abstracted into the `overlap` and
`area` parameters of the intersection matrix; everything after the matrix
is the source algorithm verbatim. -/
def filterOverlappingRosesGreedy (overlap : Sensor → Sensor → Bool)
    (area : Sensor → Sensor → ℚ) (dataArray : List Sensor)
    (curPresentSensors : Option (List String)) : FilterResult :=
  if dataArray = [] then ⟨[], [], []⟩
  else
    let m := intersectMatrix overlap area dataArray
    let allSensors := dataArray.map (·.sensor)
    let working0 := initialWorking m allSensors curPresentSensors
    let loopResult := greedyLoop m working0 []
    let finalFilteredInSensors := loopResult.2
    let filteredOutSensors := allSensors.filter (fun s => !finalFilteredInSensors.contains s)
    let best := hiddenToBestVisible m finalFilteredInSensors filteredOutSensors
    ⟨filteredOutSensors, finalFilteredInSensors, buildHiddenCounts best⟩
/-- One candidate update of the attribution loop for a fixed hidden
sensor: adopt the visible candidate when its area is positive and either
no best is recorded yet or it is strictly larger than the recorded
best. -/
def updStep (cur : Option (String × ℚ)) (v : String) (a : ℚ) : Option (String × ℚ) :=
  if 0 < a then
    match cur with
    | none => some (v, a)
    | some (_, a0) => if a0 < a then some (v, a) else cur
  else cur

/-- The per-hidden-sensor view of the nested attribution loops: folding
the candidate update over the visible list for one fixed hidden sensor.
Step 4 computes exactly this for every hidden key (proved below). -/
def bestVisibleFold (m : String → String → ℚ) (visibles : List String)
    (h : String) : Option (String × ℚ) :=
  visibles.foldl (fun acc v => updStep acc v (areaLookup m v h)) none

/-- Specification-side definition of hidden-count attribution: the
largest positive overlap area a hidden sensor has with any visible
sensor (`0` when there is none). -/
def maxAreaWith (m : String → String → ℚ) (visibles : List String) (h : String) : ℚ :=
  (visibles.map (fun v => areaLookup m v h)).foldr max 0

/-- Specification-side attribution: the first visible sensor attaining
the largest overlap area with `h`, provided that largest area is
positive ("largest area, first-found wins ties"). -/
def attributedTo (m : String → String → ℚ) (visibles : List String) (h : String) :
    Option String :=
  if 0 < maxAreaWith m visibles h then
    visibles.find? (fun v => areaLookup m v h == maxAreaWith m visibles h)
  else none

/-! ### K-means output reduction (`filterOverlappingRosesKmeans`, compute path) -/

/-- Squared distance between a sensor and a centroid.  The source takes
`Math.sqrt` of this value; it is only ever compared (`distance <
minDistance`), and square root is strictly monotone on nonnegative
reals, so the embedding keeps the squared value. -/
def sensorCentroidDistSq (s : Sensor) (c : ℚ × ℚ) : ℚ :=
  (s.latitude - c.1) ^ 2 + (s.longitude - c.2) ^ 2

/-- One step of building `sensorsByCluster`: create the singleton group
on a fresh cluster key, push onto the existing group otherwise (JS `Map`
keeps key insertion order). -/
def pushGroup (acc : List (Nat × List Sensor)) (c : Nat) (s : Sensor) :
    List (Nat × List Sensor) :=
  match lookupA acc c with
  | none => acc ++ [(c, [s])]
  | some grp => acc.map (fun e => if e.1 = c then (c, grp ++ [s]) else e)

/-- Grouping of `dataArray` by `clusters[index]`.  An index beyond
`clusters` reads `undefined` in JS; theorems about sane runs carry the
length hypothesis, the default `0` is never exercised under it. -/
def sensorsByCluster (dataArray : List Sensor) (clusters : List Nat) :
    List (Nat × List Sensor) :=
  dataArray.enum.foldl (fun acc p => pushGroup acc (clusters.getD p.1 0) p.2) []

/-- Representative search inside one group: starts with
`bestSensor = sensorGroup[0]`, `minDistance = Infinity` and scans the
whole group with a strict comparison; the first scanned element always
replaces the `Infinity` start, so folding over the tail from the head is
the same computation.  Groups built by `sensorsByCluster` are never
empty; the `[]` branch is unreachable. -/
def bestInGroup (sensorGroup : List Sensor) (centroid : ℚ × ℚ) : Sensor :=
  match sensorGroup with
  | [] => ⟨"", 0, 0⟩
  | g0 :: rest =>
    rest.foldl (fun best s =>
      if sensorCentroidDistSq s centroid < sensorCentroidDistSq best centroid then s
      else best) g0

/-- JS object property write: replace in place or append. -/
def setAssoc {α β : Type} [DecidableEq α] (l : List (α × β)) (k : α) (v : β) :
    List (α × β) :=
  match lookupA l k with
  | none => l ++ [(k, v)]
  | some _ => l.map (fun e => if e.1 = k then (k, v) else e)

/-- The reduction of a finished k-means run (source lines building
`sensorsByCluster`, `sensorsToKeep` and `hiddenCountsMap`): one
representative per cluster group (member closest to the group's
centroid), every other member hidden; `hiddenCountsMap[chosenSensor] =
groupSize` is written only when the group has more than one member.  A
cluster index with no centroid reads `undefined` in JS; theorems about
sane runs carry the bound hypothesis. -/
def kmeansReduce (dataArray : List Sensor) (clusters : List Nat)
    (centroids : List (ℚ × ℚ)) : FilterResult :=
  let groups := sensorsByCluster dataArray clusters
  let keepAndCounts := groups.foldl
    (fun (acc : List String × List (String × Nat)) g =>
      let centroid := centroids.getD g.1 (0, 0)
      let chosenSensor := (bestInGroup g.2 centroid).sensor
      let keep := if acc.1.contains chosenSensor then acc.1 else acc.1 ++ [chosenSensor]
      let counts :=
        if 1 < g.2.length then setAssoc acc.2 chosenSensor g.2.length else acc.2
      (keep, counts)) ([], [])
  let sensorsToKeep := keepAndCounts.1
  let filteredOutSensors :=
    (dataArray.map (·.sensor)).filter (fun sensor => !sensorsToKeep.contains sensor)
  ⟨filteredOutSensors, sensorsToKeep, keepAndCounts.2⟩

/-- The zoom-level → cluster-count table
(`{0: 1, 1: 2, 2: 9, 3: 18, 4: 24}` with `|| 8` for unlisted levels). -/
def clusterSizes (zoomLevel : Nat) : Nat :=
  match zoomLevel with
  | 0 => 1
  | 1 => 2
  | 2 => 9
  | 3 => 18
  | 4 => 24
  | _ => 8

/-! ### Worker-side k-means pieces (`classify.js`, `move.js`, `kmeans.js`) -/

/-- JS `Array.prototype.reduce` without an initial value: folds the tail
from the head; it throws on an empty array, `dflt` marks that
(unreachable in the modelled calls) case. -/
def jsReduce1 {α : Type} (f : α → α → α) (dflt : α) : List α → α
  | [] => dflt
  | x :: xs => xs.foldl f x

/-- The worker `zip([a, b])`: index-wise pairing driven by the first
array's indices (all modelled calls pair equal-length vectors). -/
def zipPoints (pointOne pointTwo : List ℚ) : List (List ℚ) :=
  (List.range pointOne.length).map (fun i => [pointOne.getD i 0, pointTwo.getD i 0])

/-- Squared form of `calcDistance` (sum over coordinates of the squared
differences).  The source wraps this sum in `Math.sqrt`; every consumer
only compares distances or normalizes them against their own sum, and
the claims touching actual magnitudes quantify over these values, so the
squared sum is kept. -/
def calcDistanceSq (pointOne pointTwo : List ℚ) : ℚ :=
  jsReduce1 (· + ·) 0
    ((zipPoints pointOne pointTwo).map (fun elem => (jsReduce1 (· - ·) 0 elem) ^ 2))

/-- `distance.indexOf(Math.min(...distance))`: the first index attaining
the minimum.  On an empty list the source yields `-1`; the modelled
calls always pass a nonempty centroid list. -/
def indexOfMin (distances : List ℚ) : Nat :=
  (List.range distances.length).foldl
    (fun best i => if distances.getD i 0 < distances.getD best 0 then i else best) 0

/-- `classifyData` of the classify worker: nearest-centroid index per
point. -/
def classifyData (datapoints centers : List (List ℚ)) : List Nat :=
  datapoints.map (fun point =>
    indexOfMin (centers.map (fun center => calcDistanceSq point center)))

/-- `splitData`: `splice(0, length/2)` removes and returns the first
`⌊n/2⌋` elements (the `deleteCount` argument is truncated), leaving the
rest in the clone; the returned bucket list is `[firstHalf, secondHalf]`
in split order. -/
def splitData (data : List (List ℚ)) : List (List (List ℚ)) :=
  [data.take (data.length / 2), data.drop (data.length / 2)]

/-- `combineData`: clones bucket `0` and pushes every element of bucket
`1` — concatenation of the first two pushed partial results. -/
def combineData (buckets : List (List Nat)) : List Nat :=
  buckets.getD 0 [] ++ buckets.getD 1 []

/-- The fan-in of `parallelClassifiers`: each completing worker pushes
its partial result onto `classified_data`, so the pushed list follows
`completionOrder` (the order in which workers return, a permutation of
the bucket indices), and `combineData` then concatenates the pushed
list — not the split order. -/
def parallelClassifiers (data : List (List ℚ)) (centroids : List (List ℚ))
    (completionOrder : List Nat) : List Nat :=
  combineData (completionOrder.map (fun i => classifyData ((splitData data).getD i []) centroids))

/-- `vectorAdd` of the move worker. -/
def vectorAdd (arrayOne arrayTwo : List ℚ) : List ℚ :=
  (zipPoints arrayOne arrayTwo).map (fun elem => jsReduce1 (· + ·) 0 elem)

/-- `scalarDivide`. -/
def scalarDivide (arrayOne : List ℚ) (scalar : ℚ) : List ℚ :=
  arrayOne.map (· / scalar)

/-- Effectful map over `Option` (explicit recursion for easy
unfolding): `none` as soon as one element maps to `none`. -/
def mapOption {α β : Type} (f : α → Option β) : List α → Option (List β)
  | [] => some []
  | x :: t =>
    match f x with
    | none => none
    | some y =>
      match mapOption f t with
      | none => none
      | some ys => some (y :: ys)

/-- `moveCenters` of the move worker: per cluster index, the columnwise
sum of the member points divided by `datapoints.length` (the total
number of points).  The member-point `reduce` has no initial value, so a
cluster with no members throws in JS — modelled as `none`. -/
def moveCenters (datapoints : List (List ℚ)) (centers : List (List ℚ))
    (assignments : List Nat) : Option (List (List ℚ)) :=
  mapOption (fun clusterIdx =>
    let members :=
      (datapoints.enum.filter (fun p => assignments.get? p.1 = some clusterIdx)).map (·.2)
    match members with
    | [] => none
    | p0 :: rest => some (scalarDivide (rest.foldl vectorAdd p0) (datapoints.length : ℚ)))
    (List.range centers.length)

/-- Specification-side comparator for the centroid move: the componentwise
arithmetic mean of the member points of each cluster (sum divided by the
number of assigned points). -/
def clusterMeans (datapoints : List (List ℚ)) (centers : List (List ℚ))
    (assignments : List Nat) : Option (List (List ℚ)) :=
  mapOption (fun clusterIdx =>
    let members :=
      (datapoints.enum.filter (fun p => assignments.get? p.1 = some clusterIdx)).map (·.2)
    match members with
    | [] => none
    | p0 :: rest => some (scalarDivide (rest.foldl vectorAdd p0) (members.length : ℚ)))
    (List.range centers.length)

/-! ### Weighted seeding helpers (`smartInit` / `reInitCentroid`) -/

/-- `randomIndex(max) = Math.floor(Math.random() * (max + 1))`, with the
random draw `r ∈ [0, 1)` made explicit. -/
def randomIndex (r : ℚ) (max : Nat) : Int :=
  Int.floor (r * ((max : ℚ) + 1))

/-- `generateWeightedList`: replicates `list[i]` once per loop pass of
`for (let j = 0; j < multiples; j++)` with `multiples = weights[i] *
100`, i.e. `⌈multiples⌉` times when positive and not at all
otherwise. -/
def generateWeightedList (list : List Nat) (weights : List ℚ) : List Nat :=
  (List.range weights.length).foldl
    (fun acc i =>
      acc ++ List.replicate (Int.ceil (weights.getD i 0 * 100)).toNat (list.getD i 0)) []

/-- The seeding draw `weightedList[randomIndex(weightedList.length)]`:
for `r ∈ [0, 1)` the floored product is nonnegative, so `Int.toNat` is
lossless and `none` models the JS out-of-bounds `undefined` read. -/
def drawFromWeightedList (weightedList : List Nat) (r : ℚ) : Option Nat :=
  weightedList.get? (randomIndex r weightedList.length).toNat

/-! ### Serialization of the cached result (`JSON.stringify` /
`JSON.parse` on the stored shape) -/

/-- The two brace code points (spelled via `Char.ofNat`). -/
def lbrace : Char := Char.ofNat 123

def rbrace : Char := Char.ofNat 125

/-- Decimal digits of a natural number, most significant first — the way
`JSON.stringify` renders the integer hidden counts. -/
def natDigits (n : Nat) : List Char :=
  if n < 10 then [Char.ofNat (48 + n)]
  else natDigits (n / 10) ++ [Char.ofNat (48 + n % 10)]
termination_by n
decreasing_by exact Nat.div_lt_self (by omega) (by omega)

/-- A JSON string literal for an id that needs no escaping. -/
def quoteStr (s : String) : List Char :=
  '"' :: s.data ++ ['"']

def printStrItems : List String → List Char
  | [] => []
  | [s] => quoteStr s
  | s :: rest => quoteStr s ++ ',' :: printStrItems rest

/-- `JSON.stringify` of a string array. -/
def printStrArr (l : List String) : List Char :=
  '[' :: printStrItems l ++ [']']

def printNatEntries : List (String × Nat) → List Char
  | [] => []
  | [(k, n)] => quoteStr k ++ ':' :: natDigits n
  | (k, n) :: rest => quoteStr k ++ ':' :: natDigits n ++ ',' :: printNatEntries rest

/-- `JSON.stringify` of the counts object. -/
def printNatObj (l : List (String × Nat)) : List Char :=
  lbrace :: printNatEntries l ++ [rbrace]

/-- `JSON.stringify(result)` for the stored selection result, matching
the property order of the object literal in the source. -/
def stringifyFilterResult (r : FilterResult) : String :=
  String.mk (lbrace ::
    (quoteStr "filteredOutSensors" ++ ':' :: printStrArr r.filteredOutSensors ++
     ',' :: quoteStr "filteredInSensors" ++ ':' :: printStrArr r.filteredInSensors ++
     ',' :: quoteStr "hiddenCountsMap" ++ ':' :: printNatObj r.hiddenCountsMap) ++ [rbrace])

/-- Scan one string literal body up to the closing quote (ids are stored
unescaped, see `jsonSafeString`). -/
def takeStr (cs : List Char) : Option (String × List Char) :=
  match cs.dropWhile (fun c => c ≠ '"') with
  | [] => none
  | c :: rest =>
    if c = '"' then some (String.mk (cs.takeWhile (fun c => c ≠ '"')), rest) else none

/-- Parse the comma-separated items of a nonempty string array, up to and
including the closing bracket. -/
def parseStrItems : List Char → Option (List String × List Char)
  | [] => none
  | c :: cs =>
    if c = '"' then
      match hts : takeStr cs with
      | none => none
      | some (s, rest) =>
        match rest with
        | [] => none
        | c2 :: r2 =>
          if c2 = ',' then
            match parseStrItems r2 with
            | none => none
            | some (l, r3) => some (s :: l, r3)
          else if c2 = ']' then some ([s], r2)
          else none
    else none
termination_by cs => cs.length
decreasing_by
  have haux : ∀ (l : List Char) (s : String) (r : List Char),
      takeStr l = some (s, r) → r.length < l.length := by
    intro l s r h
    unfold takeStr at h
    cases hdrop : List.dropWhile (fun c => decide (c ≠ '"')) l with
    | nil => rw [hdrop] at h; cases h
    | cons c rest0 =>
      rw [hdrop] at h
      dsimp only at h
      by_cases hc : c = '"'
      · rw [if_pos hc] at h
        injection h with h'
        injection h' with hA hB
        have hlB := congrArg List.length hB
        have hlen : (List.dropWhile (fun c => decide (c ≠ '"')) l).length ≤ l.length :=
          (List.dropWhile_sublist _).length_le
        rw [hdrop] at hlen
        simp only [List.length_cons] at hlen
        omega
      · rw [if_neg hc] at h
        cases h
  have h1 := haux _ _ _ hts
  simp only [List.length_cons] at h1 ⊢
  omega

/-- Parse `[...]` of strings. -/
def parseStrArr : List Char → Option (List String × List Char)
  | [] => none
  | c :: cs =>
    if c = '[' then
      match cs with
      | [] => none
      | c2 :: r2 => if c2 = ']' then some ([], r2) else parseStrItems cs
    else none

/-- Parse a run of decimal digits. -/
def parseNatAt (cs : List Char) : Option (Nat × List Char) :=
  match cs.takeWhile Char.isDigit with
  | [] => none
  | ds => some (ds.foldl (fun a c => a * 10 + (c.toNat - 48)) 0, cs.dropWhile Char.isDigit)

/-- Parse the comma-separated `"key":count` entries of a nonempty counts
object, up to and including the closing brace. -/
def parseNatEntries : List Char → Option (List (String × Nat) × List Char)
  | [] => none
  | c :: cs =>
    if c = '"' then
      match hts : takeStr cs with
      | none => none
      | some (k, rest) =>
        match rest with
        | [] => none
        | c2 :: r2 =>
          if c2 = ':' then
            match hpn : parseNatAt r2 with
            | none => none
            | some (n, r3) =>
              match r3 with
              | [] => none
              | c3 :: r4 =>
                if c3 = ',' then
                  match parseNatEntries r4 with
                  | none => none
                  | some (l, r5) => some ((k, n) :: l, r5)
                else if c3 = rbrace then some ([(k, n)], r4)
                else none
          else none
    else none
termination_by cs => cs.length
decreasing_by
  have haux : ∀ (l : List Char) (s : String) (r : List Char),
      takeStr l = some (s, r) → r.length < l.length := by
    intro l s r h
    unfold takeStr at h
    cases hdrop : List.dropWhile (fun c => decide (c ≠ '"')) l with
    | nil => rw [hdrop] at h; cases h
    | cons c rest0 =>
      rw [hdrop] at h
      dsimp only at h
      by_cases hc : c = '"'
      · rw [if_pos hc] at h
        injection h with h'
        injection h' with hA hB
        have hlB := congrArg List.length hB
        have hlen : (List.dropWhile (fun c => decide (c ≠ '"')) l).length ≤ l.length :=
          (List.dropWhile_sublist _).length_le
        rw [hdrop] at hlen
        simp only [List.length_cons] at hlen
        omega
      · rw [if_neg hc] at h
        cases h
  have haux2 : ∀ (l : List Char) (n : Nat) (r : List Char),
      parseNatAt l = some (n, r) → r.length ≤ l.length := by
    intro l n r h
    unfold parseNatAt at h
    cases htw : List.takeWhile Char.isDigit l with
    | nil => rw [htw] at h; cases h
    | cons d ds =>
      rw [htw] at h
      dsimp only at h
      injection h with h'
      injection h' with hA hB
      have hlB := congrArg List.length hB
      have hlen : (List.dropWhile Char.isDigit l).length ≤ l.length :=
        (List.dropWhile_sublist _).length_le
      omega
  have h1 := haux _ _ _ hts
  have h2 := haux2 _ _ _ hpn
  simp only [List.length_cons] at h1 h2 ⊢
  omega

/-- Parse the counts object. -/
def parseNatObj : List Char → Option (List (String × Nat) × List Char)
  | c1 :: rest =>
    if c1 = lbrace then
      match rest with
      | c2 :: r2 => if c2 = rbrace then some ([], r2) else parseNatEntries rest
      | [] => none
    else none
  | [] => none

/-- Match an expected literal character sequence. -/
def stripExpect : List Char → List Char → Option (List Char)
  | [], input => some input
  | e :: es, input =>
    match input with
    | c :: cs => if c = e then stripExpect es cs else none
    | [] => none

/-- `JSON.parse` specialised to the serialized selection-result shape the
cache stores (the only strings the cached-data path feeds it). -/
def parseFilterResult (s : String) : Option FilterResult :=
  match stripExpect (lbrace :: quoteStr "filteredOutSensors" ++ [':']) s.data with
  | none => none
  | some r1 =>
    match parseStrArr r1 with
    | none => none
    | some (outs, r2) =>
      match stripExpect (',' :: quoteStr "filteredInSensors" ++ [':']) r2 with
      | none => none
      | some r3 =>
        match parseStrArr r3 with
        | none => none
        | some (ins, r4) =>
          match stripExpect (',' :: quoteStr "hiddenCountsMap" ++ [':']) r4 with
          | none => none
          | some r5 =>
            match parseNatObj r5 with
            | none => none
            | some (counts, r6) =>
              match r6 with
              | [c] => if c = rbrace then some ⟨outs, ins, counts⟩ else none
              | _ => none

/-! ### The cache tiers and `filterOverlappingRosesKmeans` -/

/-- `localStorage.setItem`: overwrite in place or append. -/
def setItem (store : List (String × String)) (k v : String) :
    List (String × String) :=
  match lookupA store k with
  | none => store ++ [(k, v)]
  | some _ => store.map (fun e => if e.1 = k then (k, v) else e)

/-- `localStorage.getItem` (`null` on a missing key is `none`). -/
def getItem (store : List (String × String)) (k : String) : Option String :=
  lookupA store k

/-- The cache key `filterCache-${filterName}`. -/
def cacheKeyOf (filterName : String) : String :=
  "filterCache-" ++ filterName

/-- The compute-and-store path of `filterOverlappingRosesKmeans` (both
cache tiers missed): empty input short-circuits to the empty result
before the cluster count is even computed; otherwise the KMeans run is
consulted (`kmeansOutcome numClusters`, an oracle standing for the
random seeding and worker scheduling; `none` models the rejected promise
"KMeans result is invalid"), its outcome is reduced, and the result is
written to LocalStorage under the cache key. -/
def kmeansComputePath (store : List (String × String)) (filterName : String)
    (dataArray : List Sensor) (zoomLevel : Nat)
    (kmeansOutcome : Nat → Option (List Nat × List (ℚ × ℚ))) :
    Except String (FilterResult × List (String × String)) :=
  if dataArray = [] then .ok (⟨[], [], []⟩, store)
  else
    match kmeansOutcome (clusterSizes zoomLevel) with
    | none => .error "KMeans result is invalid"
    | some (clusters, centroids) =>
      let result := kmeansReduce dataArray clusters centroids
      .ok (result, setItem store (cacheKeyOf filterName) (stringifyFilterResult result))

/-- `filterOverlappingRosesKmeans(dataArray, zoomLevel, filterName)` with
`doClearCache = doDownloadCache = false`.  `fileTier` is the static
pre-computed file tier (`fetch` + `response.json()`, already parsed on a
hit); `store` is the LocalStorage tier; a stored string is accepted when
truthy (non-empty) and fed to `JSON.parse`.  Thrown/rejected errors on
this path are `Except.error`. -/
def filterOverlappingRosesKmeans (fileTier : Option FilterResult)
    (store : List (String × String)) (filterName : String)
    (dataArray : List Sensor) (zoomLevel : Nat)
    (kmeansOutcome : Nat → Option (List Nat × List (ℚ × ℚ))) :
    Except String (FilterResult × List (String × String)) :=
  match fileTier with
  | some cached => .ok (cached, store)
  | none =>
    match getItem store (cacheKeyOf filterName) with
    | some cachedData =>
      if cachedData = "" then
        kmeansComputePath store filterName dataArray zoomLevel kmeansOutcome
      else
        match parseFilterResult cachedData with
        | some r => .ok (r, store)
        | none => .error "JSON.parse failed"
    | none => kmeansComputePath store filterName dataArray zoomLevel kmeansOutcome

/-- A character `JSON.stringify` emits verbatim inside a string literal:
not the quote, not the backslash, not a control character. -/
def jsonSafeChar (c : Char) : Prop :=
  c ≠ '"' ∧ c ≠ Char.ofNat 92 ∧ 32 ≤ c.toNat

/-- A string `JSON.stringify` emits verbatim (sensor ids in practice). -/
def jsonSafeString (s : String) : Prop :=
  ∀ c ∈ s.data, jsonSafeChar c

/-- A selection result whose ids serialize without escaping. -/
def wellFormedResult (r : FilterResult) : Prop :=
  (∀ s ∈ r.filteredOutSensors, jsonSafeString s) ∧
  (∀ s ∈ r.filteredInSensors, jsonSafeString s) ∧
  (∀ e ∈ r.hiddenCountsMap, jsonSafeString e.1)


/-- "No conflict" of a picked sensor against a working set: no stored
matrix entry in either direction. -/
def noConflict (m : String → String → ℚ) (p : String) (w : List String) : Prop :=
  ∀ t ∈ w, t ≠ p → m p t = 0 ∧ m t p = 0


/-- The partition property of a selection result against the input id
list: visible and hidden ids together are exactly the input ids, and no
id is both. -/
def partitionsIds (r : FilterResult) (ids : List String) : Prop :=
  r.filteredInSensors.toFinset ∪ r.filteredOutSensors.toFinset = ids.toFinset ∧
  r.filteredInSensors.toFinset ∩ r.filteredOutSensors.toFinset = ∅

theorem greedyLoop_eq_nil (m : String → String → ℚ) (sel : List String) :
    greedyLoop m [] sel = (sel, []) := by
  rw [greedyLoop]
  simp

theorem greedyLoop_eq_none (m : String → String → ℚ) {w : List String} (sel : List String)
    {snd : ℚ} (hne : w ≠ [])
    (hp : pickMax (totalIntersectionArea m w) w = (none, snd)) :
    greedyLoop m w sel = (sel, w) := by
  rw [greedyLoop.eq_def]
  rw [if_neg hne]
  split
  · rfl
  · rename_i maxS maxArea heq
    exact absurd (congrArg Prod.fst (hp.symm.trans heq)) (by simp)

theorem greedyLoop_eq_zero (m : String → String → ℚ) {w : List String} (sel : List String)
    {maxS : String} (hne : w ≠ [])
    (hp : pickMax (totalIntersectionArea m w) w = (some maxS, 0)) :
    greedyLoop m w sel = (sel, w) := by
  rw [greedyLoop.eq_def]
  rw [if_neg hne]
  split
  · rename_i snd heq
    exact absurd (congrArg Prod.fst (hp.symm.trans heq)) (by simp)
  · rename_i maxS' maxArea heq
    have hcomb := hp.symm.trans heq
    injection hcomb with h1 h2
    subst h2
    rw [if_pos rfl]

theorem greedyLoop_eq_step (m : String → String → ℚ) {w : List String} (sel : List String)
    {maxS : String} {maxArea : ℚ} (hne : w ≠ [])
    (hp : pickMax (totalIntersectionArea m w) w = (some maxS, maxArea))
    (hA : maxArea ≠ 0) :
    greedyLoop m w sel =
      greedyLoop m (w.filter (keepAfterPick m maxS)) (sel ++ [maxS]) := by
  rw [greedyLoop.eq_def]
  rw [if_neg hne]
  split
  · rename_i snd heq
    exact absurd (congrArg Prod.fst (hp.symm.trans heq)) (by simp)
  · rename_i maxS' maxArea' heq
    have hcomb := hp.symm.trans heq
    injection hcomb with h1 h2
    injection h1 with h1
    subst h1
    subst h2
    rw [if_neg hA]

theorem pickMax_aux (score : String → ℚ) (l : List String) :
    ∀ acc : Option String × ℚ,
      l.foldl (fun acc s => if acc.2 < score s then (some s, score s) else acc) acc = acc ∨
      ∃ s ∈ l, l.foldl (fun acc s => if acc.2 < score s then (some s, score s) else acc) acc
        = (some s, score s) := by
  induction l with
  | nil => intro acc; left; rfl
  | cons x t ih =>
    intro acc
    simp only [List.foldl_cons]
    by_cases hx : acc.2 < score x
    · rw [if_pos hx]
      rcases ih (some x, score x) with h | ⟨s, hs, h⟩
      · right; exact ⟨x, List.mem_cons_self x t, h⟩
      · right; exact ⟨s, List.mem_cons_of_mem x hs, h⟩
    · rw [if_neg hx]
      rcases ih acc with h | ⟨s, hs, h⟩
      · left; exact h
      · right; exact ⟨s, List.mem_cons_of_mem x hs, h⟩

theorem pickMax_spec {score : String → ℚ} {l : List String} {s : String} {a : ℚ}
    (h : pickMax score l = (some s, a)) : s ∈ l ∧ a = score s := by
  rcases pickMax_aux score l (none, -1) with h0 | ⟨t, ht, h0⟩
  · rw [pickMax] at h; rw [h0] at h; cases h
  · rw [pickMax] at h; rw [h0] at h
    obtain ⟨h1, h2⟩ := Prod.mk.injEq .. ▸ h
    cases h1; exact ⟨ht, h2.symm⟩

theorem totalIntersectionArea_eq_zero {m : String → String → ℚ} {w : List String}
    {s : String} (h : ∀ t ∈ w, s ≠ t → m s t = 0) :
    totalIntersectionArea m w s = 0 := by
  have aux : ∀ (l : List String), (∀ t ∈ l, s ≠ t → m s t = 0) → ∀ acc : ℚ,
      l.foldl (fun acc other => if s ≠ other then acc + m s other else acc) acc = acc := by
    intro l
    induction l with
    | nil => intro _ acc; rfl
    | cons x t ih =>
      intro hl acc
      simp only [List.foldl_cons]
      by_cases hx : s ≠ x
      · rw [if_pos hx, hl x (List.mem_cons_self x t) hx, add_zero]
        exact ih (fun u hu => hl u (List.mem_cons_of_mem x hu)) acc
      · rw [if_neg hx]
        exact ih (fun u hu => hl u (List.mem_cons_of_mem x hu)) acc
  exact aux w h 0

theorem totalIntersectionArea_ne_zero {m : String → String → ℚ} {w : List String}
    {s : String} (h : totalIntersectionArea m w s ≠ 0) :
    ∃ t ∈ w, s ≠ t ∧ m s t ≠ 0 := by
  by_contra hc
  push_neg at hc
  exact h (totalIntersectionArea_eq_zero (fun t ht hst => hc t ht hst))


theorem keepAfterPick_self (m : String → String → ℚ) (maxS : String) :
    keepAfterPick m maxS maxS = true := by
  simp [keepAfterPick]

theorem keepAfterPick_of_noConflict {m : String → String → ℚ} {p maxS : String}
    (hne : p ≠ maxS) (h1 : m maxS p = 0) (h2 : m p maxS = 0) :
    keepAfterPick m maxS p = true := by
  simp [keepAfterPick, h1, h2]

theorem of_keepAfterPick {m : String → String → ℚ} {maxS t : String}
    (h : keepAfterPick m maxS t = true) (hne : t ≠ maxS) :
    m maxS t = 0 ∧ m t maxS = 0 := by
  simp only [keepAfterPick, Bool.or_eq_true, beq_iff_eq, Bool.not_eq_true',
    Bool.or_eq_false_iff, decide_eq_false_iff_not, not_not] at h
  rcases h with h | h
  · exact absurd h hne
  · exact h

/-- Every sensor in the final working set of the greedy loop was already
in the initial working set (the loop only filters). -/
theorem greedyLoop_working_sub (m : String → String → ℚ) :
    ∀ working selected : List String, ∀ s ∈ (greedyLoop m working selected).2,
      s ∈ working := by
  intro working selected
  induction working, selected using greedyLoop.induct m with
  | case1 sel =>
    rw [greedyLoop_eq_nil]
    intro s hs
    exact hs
  | case2 w sel hne snd hpick =>
    rw [greedyLoop_eq_none m sel hne hpick]
    intro s hs
    exact hs
  | case3 w sel hne maxS hpick =>
    rw [greedyLoop_eq_zero m sel hne hpick]
    intro s hs
    exact hs
  | case4 w sel hne maxS maxArea hpick hA ih =>
    rw [greedyLoop_eq_step m sel hne hpick hA]
    intro s hs
    exact (List.mem_filter.mp (ih s hs)).1

/-- Invariant of the greedy loop: a sensor that was picked stays in the
working set and has no conflict with any other working-set member, so no
later filtering step removes it. -/
theorem greedyLoop_selected_mem (m : String → String → ℚ) :
    ∀ working selected : List String,
      (∀ p ∈ selected, p ∈ working ∧ noConflict m p working) →
      ∀ p ∈ (greedyLoop m working selected).1, p ∈ (greedyLoop m working selected).2 := by
  intro working selected
  induction working, selected using greedyLoop.induct m with
  | case1 sel =>
    rw [greedyLoop_eq_nil]
    intro hinv p hp
    exact (hinv p hp).1
  | case2 w sel hne snd hpick =>
    rw [greedyLoop_eq_none m sel hne hpick]
    intro hinv p hp
    exact (hinv p hp).1
  | case3 w sel hne maxS hpick =>
    rw [greedyLoop_eq_zero m sel hne hpick]
    intro hinv p hp
    exact (hinv p hp).1
  | case4 w sel hne maxS maxArea hpick hA ih =>
    rw [greedyLoop_eq_step m sel hne hpick hA]
    intro hinv
    obtain ⟨hmem, harea⟩ := pickMax_spec hpick
    have hsel_ne : ∀ p ∈ sel, p ≠ maxS := by
      intro p hp hcontra
      subst hcontra
      have hzero : totalIntersectionArea m w p = 0 :=
        totalIntersectionArea_eq_zero (fun t ht hpt => ((hinv p hp).2 t ht (fun h => hpt h.symm)).1)
      exact hA (harea.trans hzero)
    apply ih
    intro p hp
    rcases List.mem_append.mp hp with hp | hp
    · -- previously selected sensor
      have hpi := hinv p hp
      have hpne : p ≠ maxS := hsel_ne p hp
      have hconf := hpi.2 maxS hmem (fun h => hpne h.symm)
      constructor
      · exact List.mem_filter.mpr ⟨hpi.1, keepAfterPick_of_noConflict hpne hconf.2 hconf.1⟩
      · intro t ht htp
        exact hpi.2 t (List.mem_filter.mp ht).1 htp
    · -- the newly picked sensor
      have hpm : p = maxS := by simpa using hp
      subst hpm
      constructor
      · exact List.mem_filter.mpr ⟨hmem, keepAfterPick_self m p⟩
      · intro t ht htp
        exact of_keepAfterPick (List.mem_filter.mp ht).2 htp

/-- Shape of the greedy filter's result on nonempty input. -/
theorem filterGreedy_eq (overlap : Sensor → Sensor → Bool) (area : Sensor → Sensor → ℚ)
    (dataArray : List Sensor) (cps : Option (List String)) (hD : dataArray ≠ []) :
    filterOverlappingRosesGreedy overlap area dataArray cps =
      ⟨(dataArray.map (·.sensor)).filter (fun s =>
          !((greedyLoop (intersectMatrix overlap area dataArray)
            (initialWorking (intersectMatrix overlap area dataArray)
              (dataArray.map (·.sensor)) cps) []).2.contains s)),
        (greedyLoop (intersectMatrix overlap area dataArray)
          (initialWorking (intersectMatrix overlap area dataArray)
            (dataArray.map (·.sensor)) cps) []).2,
        buildHiddenCounts (hiddenToBestVisible (intersectMatrix overlap area dataArray)
          (greedyLoop (intersectMatrix overlap area dataArray)
            (initialWorking (intersectMatrix overlap area dataArray)
              (dataArray.map (·.sensor)) cps) []).2
          ((dataArray.map (·.sensor)).filter (fun s =>
            !((greedyLoop (intersectMatrix overlap area dataArray)
              (initialWorking (intersectMatrix overlap area dataArray)
                (dataArray.map (·.sensor)) cps) []).2.contains s))))⟩ := by
  simp only [filterOverlappingRosesGreedy, if_neg hD]

theorem initialWorking_sub (m : String → String → ℚ) (allSensors : List String)
    (cps : Option (List String)) :
    ∀ s ∈ initialWorking m allSensors cps, s ∈ allSensors := by
  cases cps with
  | none => intro s hs; exact hs
  | some present =>
    intro s hs
    exact (List.mem_filter.mp hs).1

/-- C10 (implicit invariant of the greedy loop): a picked
maximum-conflict sensor is recorded in `selected` but kept in the
working set, and no later iteration's filtering removes it; every picked
sensor therefore lands in the final `filteredInSensors`, and the
returned visible set is exactly the loop's final working set. -/
theorem c10_picked_sensors_stay_visible (overlap : Sensor → Sensor → Bool)
    (area : Sensor → Sensor → ℚ) (dataArray : List Sensor)
    (curPresentSensors : Option (List String)) :
    (filterOverlappingRosesGreedy overlap area dataArray curPresentSensors).filteredInSensors =
      (greedyLoop (intersectMatrix overlap area dataArray)
        (initialWorking (intersectMatrix overlap area dataArray)
          (dataArray.map (·.sensor)) curPresentSensors) []).2 ∧
    ∀ s ∈ (greedyLoop (intersectMatrix overlap area dataArray)
        (initialWorking (intersectMatrix overlap area dataArray)
          (dataArray.map (·.sensor)) curPresentSensors) []).1,
      s ∈ (filterOverlappingRosesGreedy overlap area dataArray
        curPresentSensors).filteredInSensors := by
  have hshape : (filterOverlappingRosesGreedy overlap area dataArray
      curPresentSensors).filteredInSensors =
      (greedyLoop (intersectMatrix overlap area dataArray)
        (initialWorking (intersectMatrix overlap area dataArray)
          (dataArray.map (·.sensor)) curPresentSensors) []).2 := by
    by_cases hD : dataArray = []
    · subst hD
      have hw : initialWorking (intersectMatrix overlap area ([] : List Sensor))
          (([] : List Sensor).map (·.sensor)) curPresentSensors = [] := by
        cases curPresentSensors <;> rfl
      rw [hw, greedyLoop_eq_nil]
      rfl
    · rw [filterGreedy_eq overlap area dataArray curPresentSensors hD]
  refine ⟨hshape, ?_⟩
  intro s hs
  rw [hshape]
  exact greedyLoop_selected_mem (intersectMatrix overlap area dataArray) _ []
    (fun p hp => absurd hp (List.not_mem_nil p)) s hs

theorem intersectMatrix_eq_zero {overlap : Sensor → Sensor → Bool}
    {area : Sensor → Sensor → ℚ} {dataArray : List Sensor}
    (h : ∀ a ∈ dataArray, ∀ b ∈ dataArray, overlap a b = false) (x y : String) :
    intersectMatrix overlap area dataArray x y = 0 := by
  cases hx : findSensor dataArray x with
  | none => simp [intersectMatrix, hx]
  | some a =>
    cases hy : findSensor dataArray y with
    | none => simp [intersectMatrix, hx, hy]
    | some b =>
      have ha : a ∈ dataArray := by
        unfold findSensor at hx
        exact List.mem_of_find?_eq_some hx
      have hb : b ∈ dataArray := by
        unfold findSensor at hy
        exact List.mem_of_find?_eq_some hy
      simp only [intersectMatrix, hx, hy]
      rw [if_neg]
      intro hcond
      rw [h a ha b hb] at hcond
      exact Bool.false_ne_true hcond.2.1

theorem pickMax_of_all_zero {score : String → ℚ} {l : List String}
    (hl : l ≠ []) (h : ∀ s ∈ l, score s = 0) :
    ∃ s ∈ l, pickMax score l = (some s, 0) := by
  cases l with
  | nil => exact absurd rfl hl
  | cons x t =>
    refine ⟨x, List.mem_cons_self x t, ?_⟩
    rw [pickMax]
    simp only [List.foldl_cons]
    rw [if_pos (by rw [h x (List.mem_cons_self x t)]; norm_num)]
    rw [h x (List.mem_cons_self x t)]
    have aux : ∀ (u : List String), (∀ s ∈ u, score s = 0) →
        u.foldl (fun acc s => if acc.2 < score s then (some s, score s) else acc)
          (some x, 0) = (some x, 0) := by
      intro u
      induction u with
      | nil => intro _; rfl
      | cons y v ih =>
        intro hu
        simp only [List.foldl_cons]
        rw [if_neg (by rw [hu y (List.mem_cons_self y v)]; exact lt_irrefl 0)]
        exact ih (fun s hs => hu s (List.mem_cons_of_mem y hs))
    exact aux t (fun s hs => h s (List.mem_cons_of_mem x hs))

theorem greedyLoop_of_zero_matrix {m : String → String → ℚ}
    (hm : ∀ x y, m x y = 0) (w : List String) :
    greedyLoop m w [] = ([], w) := by
  rcases eq_or_ne w [] with rfl | hne
  · exact greedyLoop_eq_nil m []
  · have hscore : ∀ s ∈ w, totalIntersectionArea m w s = 0 := fun s _ =>
      totalIntersectionArea_eq_zero (fun t _ _ => hm s t)
    obtain ⟨s, hs, hp⟩ := pickMax_of_all_zero hne hscore
    exact greedyLoop_eq_zero m [] hne hp

theorem initialWorking_of_zero_matrix {m : String → String → ℚ}
    (hm : ∀ x y, m x y = 0) (allSensors : List String) (cps : Option (List String)) :
    initialWorking m allSensors cps = allSensors := by
  cases cps with
  | none => rfl
  | some present =>
    simp only [initialWorking]
    apply List.filter_eq_self.mpr
    intro s _
    simp [hm]

theorem hiddenToBestVisible_nil_hiddens (m : String → String → ℚ)
    (visibles : List String) :
    hiddenToBestVisible m visibles [] = [] := by
  have aux : ∀ (vs : List String) (acc : List (String × String × ℚ)),
      vs.foldl (fun acc _ => acc) acc = acc := by
    intro vs
    induction vs with
    | nil => intro acc; rfl
    | cons v t ih => intro acc; simp only [List.foldl_cons]; exact ih acc
  simp only [hiddenToBestVisible, List.foldl_nil]
  exact aux visibles []

/-- C8: when no pair of glyphs overlaps (the overlap predicate rejects
every pair, so the intersection index stores no positive area), the
greedy selector returns every input sensor visible, no hidden sensors
and an empty `hiddenCountsMap`. -/
theorem c8_disjoint_glyphs_all_visible (overlap : Sensor → Sensor → Bool)
    (area : Sensor → Sensor → ℚ) (dataArray : List Sensor)
    (curPresentSensors : Option (List String))
    (h : ∀ a ∈ dataArray, ∀ b ∈ dataArray, overlap a b = false) :
    filterOverlappingRosesGreedy overlap area dataArray curPresentSensors =
      ⟨[], dataArray.map (·.sensor), []⟩ := by
  by_cases hD : dataArray = []
  · subst hD
    rfl
  · have hm : ∀ x y, intersectMatrix overlap area dataArray x y = 0 :=
      intersectMatrix_eq_zero h
    rw [filterGreedy_eq overlap area dataArray curPresentSensors hD]
    rw [initialWorking_of_zero_matrix hm, greedyLoop_of_zero_matrix hm]
    have hfil : (dataArray.map (·.sensor)).filter
        (fun s => !((dataArray.map (·.sensor)).contains s)) = [] := by
      apply List.filter_eq_nil_iff.mpr
      intro s hs
      simp [hs]
    rw [hfil, hiddenToBestVisible_nil_hiddens]
    rfl

/-- Witness for C8 at a concrete two-glyph input. -/
theorem c8_disjoint_glyphs_all_visible_witness :
    filterOverlappingRosesGreedy (fun _ _ => false) (fun _ _ => 0)
      [⟨"a", 0, 0⟩, ⟨"b", 1, 1⟩] none = ⟨[], ["a", "b"], []⟩ :=
  c8_disjoint_glyphs_all_visible (fun _ _ => false) (fun _ _ => 0)
    [⟨"a", 0, 0⟩, ⟨"b", 1, 1⟩] none (by decide)

theorem lookupA_mem {α β : Type} [DecidableEq α] {l : List (α × β)} {k : α} {v : β}
    (h : lookupA l k = some v) : (k, v) ∈ l := by
  induction l with
  | nil => cases h
  | cons e t ih =>
    obtain ⟨k2, v2⟩ := e
    rw [lookupA] at h
    by_cases hk : k2 = k
    · subst hk
      rw [if_pos rfl] at h
      injection h with h
      subst h
      exact List.mem_cons_self _ _
    · rw [if_neg hk] at h
      exact List.mem_cons_of_mem _ (ih h)

theorem pushGroup_members {P : Sensor → Prop} {acc : List (Nat × List Sensor)}
    (hacc : ∀ g ∈ acc, g.2 ≠ [] ∧ ∀ s ∈ g.2, P s) {c : Nat} {x : Sensor} (hx : P x) :
    ∀ g ∈ pushGroup acc c x, g.2 ≠ [] ∧ ∀ s ∈ g.2, P s := by
  intro g hg
  unfold pushGroup at hg
  cases hlk : lookupA acc c with
  | none =>
    rw [hlk] at hg
    rcases List.mem_append.mp hg with h | h
    · exact hacc g h
    · have hgc : g = (c, [x]) := by simpa using h
      subst hgc
      refine ⟨by simp, ?_⟩
      intro s hs
      have : s = x := by simpa using hs
      subst this
      exact hx
  | some grp =>
    rw [hlk] at hg
    obtain ⟨e, he, hge⟩ := List.mem_map.mp hg
    have hgrp := hacc (c, grp) (lookupA_mem hlk)
    by_cases hec : e.1 = c
    · rw [if_pos hec] at hge
      subst hge
      refine ⟨by simp, ?_⟩
      intro s hs
      rcases List.mem_append.mp hs with h | h
      · exact hgrp.2 s h
      · have : s = x := by simpa using h
        subst this
        exact hx
    · rw [if_neg hec] at hge
      subst hge
      exact hacc e he

theorem sensorsByCluster_members (dataArray : List Sensor) (clusters : List Nat) :
    ∀ g ∈ sensorsByCluster dataArray clusters,
      g.2 ≠ [] ∧ ∀ s ∈ g.2, s ∈ dataArray := by
  have aux : ∀ (l : List (Nat × Sensor)) (acc : List (Nat × List Sensor)),
      (∀ p ∈ l, p.2 ∈ dataArray) →
      (∀ g ∈ acc, g.2 ≠ [] ∧ ∀ s ∈ g.2, s ∈ dataArray) →
      ∀ g ∈ l.foldl (fun acc p => pushGroup acc (clusters.getD p.1 0) p.2) acc,
        g.2 ≠ [] ∧ ∀ s ∈ g.2, s ∈ dataArray := by
    intro l
    induction l with
    | nil => intro acc _ hacc; exact hacc
    | cons p t ih =>
      intro acc hl hacc
      simp only [List.foldl_cons]
      exact ih _ (fun q hq => hl q (List.mem_cons_of_mem p hq))
        (pushGroup_members hacc (hl p (List.mem_cons_self p t)))
  apply aux
  · intro p hp
    exact List.enum_map_snd dataArray ▸ List.mem_map_of_mem Prod.snd hp
  · intro g hg
    exact absurd hg (List.not_mem_nil g)

theorem bestInGroup_mem {grp : List Sensor} (hne : grp ≠ []) (c : ℚ × ℚ) :
    bestInGroup grp c ∈ grp := by
  cases grp with
  | nil => exact absurd rfl hne
  | cons g0 rest =>
    have aux : ∀ (l : List Sensor) (acc : Sensor),
        l.foldl (fun best s =>
          if sensorCentroidDistSq s c < sensorCentroidDistSq best c then s
          else best) acc = acc ∨
        l.foldl (fun best s =>
          if sensorCentroidDistSq s c < sensorCentroidDistSq best c then s
          else best) acc ∈ l := by
      intro l
      induction l with
      | nil => intro acc; left; rfl
      | cons y u ih =>
        intro acc
        simp only [List.foldl_cons]
        by_cases hy : sensorCentroidDistSq y c < sensorCentroidDistSq acc c
        · rw [if_pos hy]
          rcases ih y with h | h
          · right; rw [h]; exact List.mem_cons_self y u
          · right; exact List.mem_cons_of_mem y h
        · rw [if_neg hy]
          rcases ih acc with h | h
          · left; exact h
          · right; exact List.mem_cons_of_mem y h
    simp only [bestInGroup]
    rcases aux rest g0 with h | h
    · rw [h]; exact List.mem_cons_self g0 rest
    · exact List.mem_cons_of_mem g0 h

theorem kmeansReduce_keep_sub (dataArray : List Sensor) (clusters : List Nat)
    (centroids : List (ℚ × ℚ)) :
    ∀ s ∈ (kmeansReduce dataArray clusters centroids).filteredInSensors,
      s ∈ dataArray.map (·.sensor) := by
  have hgroups := sensorsByCluster_members dataArray clusters
  have aux : ∀ (gs : List (Nat × List Sensor)) (acc : List String × List (String × Nat)),
      (∀ g ∈ gs, g.2 ≠ [] ∧ ∀ s ∈ g.2, s ∈ dataArray) →
      (∀ s ∈ acc.1, s ∈ dataArray.map (·.sensor)) →
      ∀ s ∈ (gs.foldl
        (fun (acc : List String × List (String × Nat)) g =>
          let centroid := centroids.getD g.1 (0, 0)
          let chosenSensor := (bestInGroup g.2 centroid).sensor
          let keep := if acc.1.contains chosenSensor then acc.1 else acc.1 ++ [chosenSensor]
          let counts :=
            if 1 < g.2.length then setAssoc acc.2 chosenSensor g.2.length else acc.2
          (keep, counts)) acc).1, s ∈ dataArray.map (·.sensor) := by
    intro gs
    induction gs with
    | nil => intro acc _ hacc; exact hacc
    | cons g t ih =>
      intro acc hgs hacc
      simp only [List.foldl_cons]
      apply ih _ (fun q hq => hgs q (List.mem_cons_of_mem g hq))
      intro s hs
      have hg := hgs g (List.mem_cons_self g t)
      by_cases hc : acc.1.contains (bestInGroup g.2 (centroids.getD g.1 (0, 0))).sensor
      · simp only [hc, if_pos] at hs
        exact hacc s hs
      · simp only [hc] at hs
        rw [if_neg (by simp [hc])] at hs
        rcases List.mem_append.mp hs with h | h
        · exact hacc s h
        · have : s = (bestInGroup g.2 (centroids.getD g.1 (0, 0))).sensor := by simpa using h
          subst this
          exact List.mem_map_of_mem _ (hg.2 _ (bestInGroup_mem hg.1 _))
  intro s hs
  exact aux (sensorsByCluster dataArray clusters) ([], []) hgroups
    (fun s hs => absurd hs (List.not_mem_nil s)) s hs

/-- Partition helper: when the visible list is drawn from the input ids
and the hidden list is the input ids minus the visible ones, the two
Finsets partition the input id set. -/
theorem partition_of_filter_out {In All : List String} (hsub : ∀ s ∈ In, s ∈ All) :
    In.toFinset ∪ (All.filter (fun s => !In.contains s)).toFinset = All.toFinset ∧
    In.toFinset ∩ (All.filter (fun s => !In.contains s)).toFinset = ∅ := by
  constructor
  · ext s
    simp only [Finset.mem_union, List.mem_toFinset, List.mem_filter,
      Bool.not_eq_true', List.contains_eq_any_beq]
    constructor
    · rintro (h | h)
      · exact hsub s h
      · exact h.1
    · intro h
      by_cases hIn : s ∈ In
      · exact Or.inl hIn
      · refine Or.inr ⟨h, ?_⟩
        simp only [List.any_eq_false, beq_iff_eq]
        intro x hx hsx
        exact hIn (hsx ▸ hx)
  · ext s
    simp only [Finset.mem_inter, List.mem_toFinset, List.mem_filter,
      Bool.not_eq_true', List.contains_eq_any_beq, Finset.not_mem_empty, iff_false, not_and]
    intro hIn _ hany
    simp only [List.any_eq_false, beq_iff_eq] at hany
    exact hany s hIn rfl

/-- C1: for inputs with unique sensor ids, both strategies (the greedy
selector, and the clustering selector's reduction of any finished
k-means run) return `filteredInSensors` / `filteredOutSensors` that
partition the input sensor-id set: union equal to the input id set,
intersection empty. -/
theorem c1_partition_visible_hidden (overlap : Sensor → Sensor → Bool)
    (area : Sensor → Sensor → ℚ) (dataArray : List Sensor)
    (curPresentSensors : Option (List String)) (clusters : List Nat)
    (centroids : List (ℚ × ℚ))
    (hnodup : (dataArray.map (·.sensor)).Nodup) :
    partitionsIds (filterOverlappingRosesGreedy overlap area dataArray curPresentSensors)
      (dataArray.map (·.sensor)) ∧
    partitionsIds (kmeansReduce dataArray clusters centroids)
      (dataArray.map (·.sensor)) := by
  constructor
  · by_cases hD : dataArray = []
    · subst hD
      constructor <;> simp [filterOverlappingRosesGreedy]
    · rw [filterGreedy_eq overlap area dataArray curPresentSensors hD]
      exact partition_of_filter_out (fun s hs =>
        initialWorking_sub (intersectMatrix overlap area dataArray)
          (dataArray.map (·.sensor)) curPresentSensors s
          (greedyLoop_working_sub (intersectMatrix overlap area dataArray) _ [] s hs))
  · exact partition_of_filter_out
      (fun s hs => kmeansReduce_keep_sub dataArray clusters centroids s hs)

/-- Witness for C1 at a concrete input for both strategies. -/
theorem c1_partition_visible_hidden_witness :
    (([⟨"a", 0, 0⟩, ⟨"b", 5, 5⟩] : List Sensor).map (·.sensor)).Nodup ∧
    (partitionsIds (filterOverlappingRosesGreedy (fun _ _ => true) (fun _ _ => 1)
        [⟨"a", 0, 0⟩, ⟨"b", 5, 5⟩] none) (([⟨"a", 0, 0⟩, ⟨"b", 5, 5⟩] : List Sensor).map (·.sensor)) ∧
     partitionsIds (kmeansReduce [⟨"a", 0, 0⟩, ⟨"b", 5, 5⟩] [0, 1] [(0, 0), (5, 5)])
        (([⟨"a", 0, 0⟩, ⟨"b", 5, 5⟩] : List Sensor).map (·.sensor))) :=
  ⟨by decide,
   c1_partition_visible_hidden (fun _ _ => true) (fun _ _ => 1)
     [⟨"a", 0, 0⟩, ⟨"b", 5, 5⟩] none [0, 1] [(0, 0), (5, 5)] (by decide)⟩

/-- C3 (code bug in the source): the centroid-recompute step
`moveCenters` divides each cluster's columnwise sum by
`datapoints.length` (the total number of points), not by the number of
points assigned to the cluster, contradicting its own comments ("return
value will be divided for avg", "center of mass of member points") and
the spec.  Four points in two two-member clusters: the computed centers
are exactly half the member means. -/
theorem c3_moveCenters_divides_by_total_count :
    moveCenters [[0, 0], [2, 0], [10, 0], [12, 0]] [[0, 0], [10, 0]] [0, 0, 1, 1] =
      some [[1/2, 0], [11/2, 0]] ∧
    clusterMeans [[0, 0], [2, 0], [10, 0], [12, 0]] [[0, 0], [10, 0]] [0, 0, 1, 1] =
      some [[1, 0], [11, 0]] ∧
    moveCenters [[0, 0], [2, 0], [10, 0], [12, 0]] [[0, 0], [10, 0]] [0, 0, 1, 1] ≠
      clusterMeans [[0, 0], [2, 0], [10, 0], [12, 0]] [[0, 0], [10, 0]] [0, 0, 1, 1] := by
  have h1 : moveCenters [[0, 0], [2, 0], [10, 0], [12, 0]] [[0, 0], [10, 0]] [0, 0, 1, 1] =
      some [[1/2, 0], [11/2, 0]] := by
    simp only [moveCenters, mapOption, scalarDivide, vectorAdd, zipPoints, jsReduce1,
      List.range_succ, List.enum, List.enumFrom, List.filter, List.map, List.foldl,
      List.length_cons, List.length_nil, List.getD, List.get?, List.range_zero,
      List.nil_append, List.cons_append, List.map_cons, List.map_nil]
    norm_num
  have h2 : clusterMeans [[0, 0], [2, 0], [10, 0], [12, 0]] [[0, 0], [10, 0]] [0, 0, 1, 1] =
      some [[1, 0], [11, 0]] := by
    simp only [clusterMeans, mapOption, scalarDivide, vectorAdd, zipPoints, jsReduce1,
      List.range_succ, List.enum, List.enumFrom, List.filter, List.map, List.foldl,
      List.length_cons, List.length_nil, List.getD, List.get?, List.range_zero,
      List.nil_append, List.cons_append, List.map_cons, List.map_nil]
    norm_num
  refine ⟨h1, h2, ?_⟩
  rw [h1, h2]
  intro hcontra
  have := Option.some.injEq .. ▸ hcontra
  simp only [List.cons.injEq] at this
  exact absurd this.1.1 (by norm_num)

/-- C4 (code bug in the source): `parallelClassifiers` pushes each
worker's partial result in completion order and `combineData`
concatenates the pushed list, so when the second bucket's worker returns
first the recombined assignment vector has its bucket blocks swapped —
points are no longer listed at their original indices.  Two points, two
singleton buckets, index-aligned assignments `[0, 1]`. -/
theorem c4_completion_order_permutes_assignments :
    parallelClassifiers [[0, 0], [10, 10]] [[0, 0], [10, 10]] [1, 0] = [1, 0] ∧
    classifyData [[0, 0], [10, 10]] [[0, 0], [10, 10]] = [0, 1] ∧
    parallelClassifiers [[0, 0], [10, 10]] [[0, 0], [10, 10]] [0, 1] = [0, 1] := by
  refine ⟨?_, ?_, ?_⟩ <;>
  · simp only [parallelClassifiers, combineData, splitData, classifyData, indexOfMin,
      calcDistanceSq, zipPoints, jsReduce1, List.range_succ, List.range_zero,
      List.length_cons, List.length_nil, List.map, List.foldl, List.getD, List.get?,
      List.take, List.drop, List.nil_append, List.cons_append]
    norm_num

/-- C7 (code bug in the source): `randomIndex(max)` is
`Math.floor(Math.random() * (max + 1))`, which equals `max` whenever the
draw satisfies `r ≥ max/(max+1)`, and the weighted candidate list is
indexed with it, reading past the end (`undefined`).  With the k-means++
weights `[0, 1]` over two candidate indices the list has length 100, and
the valid draw `r = 100/101` yields index 100 — out of bounds, so the
chosen centroid is not an input point. -/
theorem c7_weighted_draw_out_of_bounds :
    (0 : ℚ) ≤ 100/101 ∧ (100/101 : ℚ) < 1 ∧
    (generateWeightedList [0, 1] [0, 1]).length = 100 ∧
    randomIndex (100/101) (generateWeightedList [0, 1] [0, 1]).length = 100 ∧
    drawFromWeightedList (generateWeightedList [0, 1] [0, 1]) (100/101) = none := by
  have hlist : generateWeightedList [0, 1] [0, 1] = List.replicate 100 1 := by
    simp only [generateWeightedList, List.range_succ, List.range_zero, List.length_cons,
      List.length_nil, List.foldl, List.getD, List.get?, List.nil_append, List.cons_append]
    norm_num
    all_goals decide
  have hlen : (generateWeightedList [0, 1] [0, 1]).length = 100 := by
    rw [hlist, List.length_replicate]
  have hfloor : randomIndex (100/101) (generateWeightedList [0, 1] [0, 1]).length = 100 := by
    rw [hlen, randomIndex]
    norm_num
  refine ⟨by norm_num, by norm_num, hlen, hfloor, ?_⟩
  rw [drawFromWeightedList, hfloor, hlist]
  simp [List.get?_eq_none]

/-- C6 counterexample: with both cache tiers missing and a positive
cluster count (zoom level 2 maps to 9 clusters), the clustering selector
on an empty glyph array returns `ok` with the empty result — the same
degradation as the greedy selector — instead of failing loudly. -/
theorem c6_empty_input_returns_ok_counterexample :
    0 < clusterSizes 2 ∧
    filterOverlappingRosesKmeans none [] "f" [] 2 (fun _ => none) =
      .ok (⟨[], [], []⟩, []) := by
  exact ⟨by decide, rfl⟩

/-- C6 amended: on the compute path (static file tier missed,
LocalStorage missed) the clustering selector applied to an empty glyph
array returns the empty result without raising, for every zoom level
(every cluster count in the table is positive) and every k-means
oracle. -/
theorem c6_empty_input_degrades_to_empty_result (store : List (String × String))
    (filterName : String) (zoomLevel : Nat)
    (kmeansOutcome : Nat → Option (List Nat × List (ℚ × ℚ)))
    (hmiss : getItem store (cacheKeyOf filterName) = none) :
    0 < clusterSizes zoomLevel ∧
    filterOverlappingRosesKmeans none store filterName [] zoomLevel kmeansOutcome =
      .ok (⟨[], [], []⟩, store) := by
  constructor
  · rcases zoomLevel with _ | _ | _ | _ | _ | n <;> simp [clusterSizes]
  · simp only [filterOverlappingRosesKmeans, hmiss, kmeansComputePath, if_pos]

/-- Witness for the amended C6 at a concrete empty store. -/
theorem c6_empty_input_degrades_witness :
    getItem [] (cacheKeyOf "lockdown_2") = none ∧
    (0 < clusterSizes 3 ∧
     filterOverlappingRosesKmeans none [] "lockdown_2" [] 3 (fun _ => none) =
       .ok (⟨[], [], []⟩, [])) :=
  ⟨rfl, c6_empty_input_degrades_to_empty_result [] "lockdown_2" 3 (fun _ => none) rfl⟩

/-! ### Association-list lemmas -/

theorem lookupA_append {α β : Type} [DecidableEq α] (l1 l2 : List (α × β)) (k : α) :
    lookupA (l1 ++ l2) k = (lookupA l1 k).or (lookupA l2 k) := by
  induction l1 with
  | nil => rfl
  | cons e t ih =>
    obtain ⟨k2, v2⟩ := e
    by_cases hk : k2 = k
    · subst hk
      simp [lookupA]
    · simp [lookupA, hk, ih]

theorem lookupA_eq_none_iff {α β : Type} [DecidableEq α] (l : List (α × β)) (k : α) :
    lookupA l k = none ↔ k ∉ l.map (·.1) := by
  induction l with
  | nil => simp [lookupA]
  | cons e t ih =>
    obtain ⟨k2, v2⟩ := e
    by_cases hk : k2 = k
    · subst hk
      simp [lookupA]
    · simp [lookupA, hk, ih, Ne.symm hk]

theorem lookupA_map_replace_self {α β : Type} [DecidableEq α] (l : List (α × β))
    (k : α) (v : β) :
    lookupA (l.map (fun e => if e.1 = k then (k, v) else e)) k =
      (lookupA l k).map (fun _ => v) := by
  induction l with
  | nil => rfl
  | cons e t ih =>
    obtain ⟨k2, v2⟩ := e
    by_cases hk : k2 = k
    · subst hk
      simp only [List.map_cons, if_pos, if_true]
      simp [lookupA, ih]
    · simp only [List.map_cons]
      rw [if_neg (by simpa using hk)]
      simp [lookupA, hk, ih]

theorem lookupA_map_replace_ne {α β : Type} [DecidableEq α] (l : List (α × β))
    (k : α) (v : β) (x : α) (hx : x ≠ k) :
    lookupA (l.map (fun e => if e.1 = k then (k, v) else e)) x = lookupA l x := by
  induction l with
  | nil => rfl
  | cons e t ih =>
    obtain ⟨k2, v2⟩ := e
    by_cases hk : k2 = k
    · subst hk
      simp only [List.map_cons, if_pos rfl]
      rw [lookupA, lookupA, if_neg (Ne.symm hx), if_neg ?hne]
      · exact ih
      · exact fun h => hx h.symm
    · simp only [List.map_cons]
      rw [if_neg (by simpa using hk)]
      rw [lookupA, lookupA]
      by_cases hk2x : k2 = x
      · rw [if_pos hk2x, if_pos hk2x]
      · rw [if_neg hk2x, if_neg hk2x]
        exact ih

theorem lookupA_setAssoc_self {α β : Type} [DecidableEq α] (l : List (α × β))
    (k : α) (v : β) :
    lookupA (setAssoc l k v) k = some v := by
  unfold setAssoc
  cases hlk : lookupA l k with
  | none =>
    rw [lookupA_append, hlk]
    simp [lookupA]
  | some v0 =>
    rw [lookupA_map_replace_self, hlk]
    rfl

theorem lookupA_setAssoc_ne {α β : Type} [DecidableEq α] (l : List (α × β))
    (k : α) (v : β) (x : α) (hx : x ≠ k) :
    lookupA (setAssoc l k v) x = lookupA l x := by
  unfold setAssoc
  cases hlk : lookupA l k with
  | none =>
    rw [lookupA_append]
    cases hx2 : lookupA l x with
    | none => simp [lookupA, Ne.symm hx]
    | some vx => rfl
  | some v0 => exact lookupA_map_replace_ne l k v x hx

theorem lookupA_decomp {α β : Type} [DecidableEq α] {l : List (α × β)} {k : α} {v : β}
    (hnd : (l.map (·.1)).Nodup) (h : lookupA l k = some v) :
    ∃ l1 l2, l = l1 ++ (k, v) :: l2 ∧ (∀ e ∈ l1, e.1 ≠ k) ∧ (∀ e ∈ l2, e.1 ≠ k) := by
  induction l with
  | nil => cases h
  | cons e t ih =>
    obtain ⟨k2, v2⟩ := e
    rw [lookupA] at h
    rw [List.map_cons] at hnd
    have hnd2 := List.nodup_cons.mp hnd
    by_cases hk : k2 = k
    · subst hk
      rw [if_pos rfl] at h
      injection h with h
      subst h
      refine ⟨[], t, rfl, by simp, ?_⟩
      intro e he hek
      exact hnd2.1 (hek ▸ List.mem_map_of_mem (·.1) he)
    · rw [if_neg hk] at h
      obtain ⟨l1, l2, heq, h1, h2⟩ := ih hnd2.2 h
      refine ⟨(k2, v2) :: l1, l2, by rw [heq]; rfl, ?_, h2⟩
      intro e he
      rcases List.mem_cons.mp he with rfl | he2
      · exact hk
      · exact h1 e he2

theorem coe_append_ms (a b : List Sensor) :
    ((a ++ b : List Sensor) : Multiset Sensor) = (a : Multiset Sensor) + (b : Multiset Sensor) :=
  (Multiset.coe_add a b).symm

theorem pushGroup_step {acc : List (Nat × List Sensor)} {c : Nat} {s : Sensor}
    (hnd : (acc.map (·.1)).Nodup) :
    ((pushGroup acc c s).map (·.1)).Nodup ∧
    (((pushGroup acc c s).flatMap (·.2) : List Sensor) : Multiset Sensor) =
      ((acc.flatMap (·.2) : List Sensor) : Multiset Sensor) + {s} := by
  unfold pushGroup
  cases hlk : lookupA acc c with
  | none =>
    dsimp only
    have hcfresh : c ∉ acc.map (·.1) := (lookupA_eq_none_iff acc c).mp hlk
    constructor
    · rw [List.map_append]
      apply List.Nodup.append hnd (by simp)
      intro x hx hx2
      have : x = c := by simpa using hx2
      exact hcfresh (this ▸ hx)
    · rw [List.flatMap_append]
      simp only [List.flatMap_cons, List.flatMap_nil, List.append_nil]
      rw [coe_append_ms]
      rfl
  | some grp =>
    dsimp only
    obtain ⟨l1, l2, heq, h1, h2⟩ := lookupA_decomp hnd hlk
    subst heq
    have hmap : (l1 ++ (c, grp) :: l2).map
        (fun e => if e.1 = c then (c, grp ++ [s]) else e) =
        l1 ++ (c, grp ++ [s]) :: l2 := by
      rw [List.map_append, List.map_cons]
      rw [List.map_congr_left (fun e he => if_neg (h1 e he)), List.map_id']
      rw [List.map_congr_left (fun e he => if_neg (h2 e he)), List.map_id']
      rw [if_pos rfl]
    rw [hmap]
    constructor
    · have hsame : (l1 ++ (c, grp ++ [s]) :: l2).map (·.1) =
          (l1 ++ (c, grp) :: l2).map (·.1) := by
        simp [List.map_append, List.map_cons]
      rw [hsame]
      exact hnd
    · simp only [List.flatMap_append, List.flatMap_cons]
      rw [coe_append_ms, coe_append_ms, coe_append_ms, coe_append_ms, coe_append_ms]
      rw [show (([s] : List Sensor) : Multiset Sensor) = ({s} : Multiset Sensor) from rfl]
      abel

theorem sensorsByCluster_structure (dataArray : List Sensor) (clusters : List Nat) :
    ((sensorsByCluster dataArray clusters).map (·.1)).Nodup ∧
    (((sensorsByCluster dataArray clusters).flatMap (·.2) : List Sensor) : Multiset Sensor) =
      (dataArray : Multiset Sensor) := by
  have aux : ∀ (l : List (Nat × Sensor)) (acc : List (Nat × List Sensor)),
      (acc.map (·.1)).Nodup →
      (((l.foldl (fun acc p => pushGroup acc (clusters.getD p.1 0) p.2) acc).map (·.1)).Nodup ∧
       (((l.foldl (fun acc p => pushGroup acc (clusters.getD p.1 0) p.2) acc).flatMap (·.2) :
          List Sensor) : Multiset Sensor) =
        ((acc.flatMap (·.2) : List Sensor) : Multiset Sensor) +
          ((l.map (·.2) : List Sensor) : Multiset Sensor)) := by
    intro l
    induction l with
    | nil =>
      intro acc hacc
      exact ⟨hacc, by simp⟩
    | cons p t ih =>
      intro acc hacc
      simp only [List.foldl_cons]
      obtain ⟨hstep1, hstep2⟩ := @pushGroup_step acc (clusters.getD p.1 0) p.2 hacc
      obtain ⟨ih1, ih2⟩ := ih _ hstep1
      refine ⟨ih1, ?_⟩
      rw [ih2, hstep2]
      simp only [List.map_cons]
      rw [show ((p.2 :: t.map (·.2) : List Sensor) : Multiset Sensor) =
        {p.2} + ((t.map (·.2) : List Sensor) : Multiset Sensor) from rfl]
      abel
  have h := aux dataArray.enum [] (by simp)
  refine ⟨h.1, ?_⟩
  have h2 := h.2
  simp only [List.flatMap_nil] at h2
  rw [sensorsByCluster, h2, List.enum_map_snd dataArray]
  simp

theorem sensorsByCluster_flat_sensors_nodup (dataArray : List Sensor)
    (clusters : List Nat) (hnodup : (dataArray.map (·.sensor)).Nodup) :
    (((sensorsByCluster dataArray clusters).flatMap (·.2)).map (·.sensor)).Nodup := by
  have hms := (sensorsByCluster_structure dataArray clusters).2
  have hperm : List.Perm ((sensorsByCluster dataArray clusters).flatMap (·.2)) dataArray :=
    Multiset.coe_eq_coe.mp hms
  exact ((hperm.map (·.sensor)).nodup_iff).mpr hnodup

theorem reps_injective (dataArray : List Sensor) (clusters : List Nat)
    (centroids : List (ℚ × ℚ)) (hnodup : (dataArray.map (·.sensor)).Nodup) :
    ∀ g ∈ sensorsByCluster dataArray clusters,
      ∀ g' ∈ sensorsByCluster dataArray clusters, g' ≠ g →
        (bestInGroup g'.2 (centroids.getD g'.1 (0, 0))).sensor ≠
          (bestInGroup g.2 (centroids.getD g.1 (0, 0))).sensor := by
  have hflat := sensorsByCluster_flat_sensors_nodup dataArray clusters hnodup
  rw [List.map_flatMap] at hflat
  have hpair := (List.nodup_flatMap.mp hflat).2
  have hsymm : Symmetric (Function.onFun List.Disjoint (fun g : Nat × List Sensor =>
      g.2.map (·.sensor))) := fun a b h => List.Disjoint.symm h
  have hforall := hpair.forall hsymm
  intro g hg g' hg' hne hcontra
  have hgne := sensorsByCluster_members dataArray clusters g hg
  have hgne' := sensorsByCluster_members dataArray clusters g' hg'
  have hmem' : (bestInGroup g'.2 (centroids.getD g'.1 (0, 0))).sensor ∈
      g'.2.map (·.sensor) :=
    List.mem_map_of_mem _ (bestInGroup_mem hgne'.1 _)
  have hmem : (bestInGroup g.2 (centroids.getD g.1 (0, 0))).sensor ∈
      g.2.map (·.sensor) :=
    List.mem_map_of_mem _ (bestInGroup_mem hgne.1 _)
  exact hforall hg' hg hne hmem' (hcontra ▸ hmem)

theorem kmeansReduce_counts_proj (dataArray : List Sensor) (clusters : List Nat)
    (centroids : List (ℚ × ℚ)) :
    (kmeansReduce dataArray clusters centroids).hiddenCountsMap =
      (sensorsByCluster dataArray clusters).foldl
        (fun acc2 g =>
          if 1 < g.2.length then
            setAssoc acc2 (bestInGroup g.2 (centroids.getD g.1 (0, 0))).sensor g.2.length
          else acc2) [] := by
  have aux : ∀ (gs : List (Nat × List Sensor)) (acc : List String × List (String × Nat)),
      (gs.foldl
        (fun (acc : List String × List (String × Nat)) g =>
          let centroid := centroids.getD g.1 (0, 0)
          let chosenSensor := (bestInGroup g.2 centroid).sensor
          let keep := if acc.1.contains chosenSensor then acc.1 else acc.1 ++ [chosenSensor]
          let counts :=
            if 1 < g.2.length then setAssoc acc.2 chosenSensor g.2.length else acc.2
          (keep, counts)) acc).2 =
      gs.foldl
        (fun acc2 g =>
          if 1 < g.2.length then
            setAssoc acc2 (bestInGroup g.2 (centroids.getD g.1 (0, 0))).sensor g.2.length
          else acc2) acc.2 := by
    intro gs
    induction gs with
    | nil => intro acc; rfl
    | cons g t ih =>
      intro acc
      simp only [List.foldl_cons]
      exact ih _
  exact aux (sensorsByCluster dataArray clusters) ([], [])

theorem countsFold_preserve (centroids : List (ℚ × ℚ)) :
    ∀ (gs : List (Nat × List Sensor)) (acc2 : List (String × Nat)) (k : String),
      (∀ g ∈ gs, (bestInGroup g.2 (centroids.getD g.1 (0, 0))).sensor ≠ k) →
      lookupA (gs.foldl
        (fun acc2 g =>
          if 1 < g.2.length then
            setAssoc acc2 (bestInGroup g.2 (centroids.getD g.1 (0, 0))).sensor g.2.length
          else acc2) acc2) k = lookupA acc2 k := by
  intro gs
  induction gs with
  | nil => intro acc2 k _; rfl
  | cons g t ih =>
    intro acc2 k hne
    simp only [List.foldl_cons]
    rw [ih _ k (fun g' hg' => hne g' (List.mem_cons_of_mem g hg'))]
    by_cases hlen : 1 < g.2.length
    · rw [if_pos hlen]
      exact lookupA_setAssoc_ne _ _ _ _ (Ne.symm (hne g (List.mem_cons_self g t)))
    · rw [if_neg hlen]

/-- C5 amended: the representative of every final cluster group (its
member closest to the group's centroid) receives a `hiddenCountsMap`
entry equal to the group's size (representative included) exactly when
the group has at least two members; singleton groups get no entry. -/
theorem c5_representative_count_entries (dataArray : List Sensor) (clusters : List Nat)
    (centroids : List (ℚ × ℚ)) (hnodup : (dataArray.map (·.sensor)).Nodup) :
    ∀ g ∈ sensorsByCluster dataArray clusters,
      lookupA (kmeansReduce dataArray clusters centroids).hiddenCountsMap
        (bestInGroup g.2 (centroids.getD g.1 (0, 0))).sensor =
        (if 1 < g.2.length then some g.2.length else none) := by
  intro g hg
  rw [kmeansReduce_counts_proj]
  obtain ⟨gs1, gs2, hsplit⟩ := List.append_of_mem hg
  have hkeys := (sensorsByCluster_structure dataArray clusters).1
  have hrepinj := reps_injective dataArray clusters centroids hnodup
  have hkeys2 : ((gs1 ++ g :: gs2).map (·.1)).Nodup := hsplit ▸ hkeys
  have hgkey : g.1 ∉ gs1.map (·.1) ∧ g.1 ∉ gs2.map (·.1) := by
    rw [List.map_append, List.map_cons] at hkeys2
    have h1 := List.Nodup.of_append_right hkeys2
    have hd := List.disjoint_of_nodup_append hkeys2
    constructor
    · intro hmem
      exact hd hmem (List.mem_cons_self _ _)
    · exact (List.nodup_cons.mp h1).1
  have hne1 : ∀ g' ∈ gs1, (bestInGroup g'.2 (centroids.getD g'.1 (0, 0))).sensor ≠
      (bestInGroup g.2 (centroids.getD g.1 (0, 0))).sensor := by
    intro g' hg'
    apply hrepinj g hg g' (hsplit ▸ List.mem_append_left _ hg')
    intro hcontra
    exact hgkey.1 (hcontra ▸ List.mem_map_of_mem (·.1) hg')
  have hne2 : ∀ g' ∈ gs2, (bestInGroup g'.2 (centroids.getD g'.1 (0, 0))).sensor ≠
      (bestInGroup g.2 (centroids.getD g.1 (0, 0))).sensor := by
    intro g' hg'
    apply hrepinj g hg g'
      (hsplit ▸ List.mem_append_right _ (List.mem_cons_of_mem _ hg'))
    intro hcontra
    exact hgkey.2 (hcontra ▸ List.mem_map_of_mem (·.1) hg')
  rw [hsplit, List.foldl_append, List.foldl_cons]
  have hbase : lookupA (gs1.foldl
      (fun acc2 g =>
        if 1 < g.2.length then
          setAssoc acc2 (bestInGroup g.2 (centroids.getD g.1 (0, 0))).sensor g.2.length
        else acc2) [])
      (bestInGroup g.2 (centroids.getD g.1 (0, 0))).sensor = none := by
    rw [countsFold_preserve centroids gs1 [] _ hne1]
    rfl
  by_cases hlen : 1 < g.2.length
  · rw [if_pos hlen]
    rw [countsFold_preserve centroids gs2 _ _ hne2]
    rw [if_pos hlen, lookupA_setAssoc_self]
  · rw [if_neg hlen]
    rw [countsFold_preserve centroids gs2 _ _ hne2]
    rw [if_neg hlen]
    exact hbase

/-- C5 counterexample: a finished clustering run with a singleton group
(one point, one cluster) writes no `hiddenCountsMap` entry for its
representative, refuting "written even when group size is 1". -/
theorem c5_singleton_group_gets_no_entry :
    (kmeansReduce [⟨"a", 0, 0⟩] [0] [(0, 0)]).filteredInSensors = ["a"] ∧
    (kmeansReduce [⟨"a", 0, 0⟩] [0] [(0, 0)]).hiddenCountsMap = [] := by
  exact ⟨rfl, rfl⟩

/-- Witness for the amended C5: two clusters, a singleton and a pair. -/
theorem c5_representative_count_entries_witness :
    (([⟨"a", 0, 0⟩, ⟨"b", 10, 0⟩, ⟨"c", 10, 1⟩] : List Sensor).map (·.sensor)).Nodup ∧
    ((1, ([⟨"b", 10, 0⟩, ⟨"c", 10, 1⟩] : List Sensor)) ∈
      sensorsByCluster [⟨"a", 0, 0⟩, ⟨"b", 10, 0⟩, ⟨"c", 10, 1⟩] [0, 1, 1]) ∧
    lookupA (kmeansReduce [⟨"a", 0, 0⟩, ⟨"b", 10, 0⟩, ⟨"c", 10, 1⟩] [0, 1, 1]
        [(0, 0), (10, 0)]).hiddenCountsMap
      (bestInGroup ([⟨"b", 10, 0⟩, ⟨"c", 10, 1⟩] : List Sensor)
        (([(0, 0), (10, 0)] : List (ℚ × ℚ)).getD 1 (0, 0))).sensor =
      (if 1 < ([⟨"b", 10, 0⟩, ⟨"c", 10, 1⟩] : List Sensor).length then
        some ([⟨"b", 10, 0⟩, ⟨"c", 10, 1⟩] : List Sensor).length else none) := by
  have hval : sensorsByCluster [⟨"a", 0, 0⟩, ⟨"b", 10, 0⟩, ⟨"c", 10, 1⟩] [0, 1, 1] =
      [(0, [⟨"a", 0, 0⟩]), (1, [⟨"b", 10, 0⟩, ⟨"c", 10, 1⟩])] := rfl
  have hmem : (1, ([⟨"b", 10, 0⟩, ⟨"c", 10, 1⟩] : List Sensor)) ∈
      sensorsByCluster [⟨"a", 0, 0⟩, ⟨"b", 10, 0⟩, ⟨"c", 10, 1⟩] [0, 1, 1] := by
    rw [hval]
    exact List.mem_cons_of_mem _ (List.mem_cons_self _ _)
  exact ⟨by decide, hmem,
    c5_representative_count_entries [⟨"a", 0, 0⟩, ⟨"b", 10, 0⟩, ⟨"c", 10, 1⟩] [0, 1, 1]
      [(0, 0), (10, 0)] (by decide) (1, [⟨"b", 10, 0⟩, ⟨"c", 10, 1⟩]) hmem⟩

theorem lookupA_updateBest_self (l : List (String × String × ℚ)) (h v : String) (a : ℚ)
    (ha : 0 < a) :
    lookupA (updateBest l h v a) h = updStep (lookupA l h) v a := by
  unfold updateBest
  cases hlk : lookupA l h with
  | none =>
    dsimp only
    rw [lookupA_append, hlk]
    simp [lookupA, updStep, ha]
  | some va =>
    obtain ⟨v0, a0⟩ := va
    dsimp only
    by_cases hlt : a0 < a
    · rw [if_pos hlt, lookupA_map_replace_self, hlk]
      simp [updStep, ha, hlt]
    · rw [if_neg hlt, hlk]
      simp [updStep, ha, hlt]

theorem lookupA_updateBest_ne (l : List (String × String × ℚ)) (h v : String) (a : ℚ)
    (x : String) (hx : x ≠ h) :
    lookupA (updateBest l h v a) x = lookupA l x := by
  unfold updateBest
  cases hlk : lookupA l h with
  | none =>
    dsimp only
    rw [lookupA_append]
    cases hx2 : lookupA l x with
    | none => simp [lookupA, Ne.symm hx]
    | some vx => rfl
  | some va =>
    obtain ⟨v0, a0⟩ := va
    dsimp only
    by_cases hlt : a0 < a
    · rw [if_pos hlt]
      exact lookupA_map_replace_ne l h (v, a) x hx
    · rw [if_neg hlt]

theorem updateBest_keys_nodup {l : List (String × String × ℚ)} (h v : String) (a : ℚ)
    (hnd : (l.map (·.1)).Nodup) : ((updateBest l h v a).map (·.1)).Nodup := by
  unfold updateBest
  cases hlk : lookupA l h with
  | none =>
    dsimp only
    rw [List.map_append]
    apply List.Nodup.append hnd (by simp)
    intro x hx hx2
    have hxh : x = h := by simpa using hx2
    exact (lookupA_eq_none_iff l h).mp hlk (hxh ▸ hx)
  | some va =>
    obtain ⟨v0, a0⟩ := va
    dsimp only
    by_cases hlt : a0 < a
    · rw [if_pos hlt]
      have hsame : (l.map (fun e => if e.1 = h then (h, v, a) else e)).map (·.1) =
          l.map (·.1) := by
        rw [List.map_map]
        apply List.map_congr_left
        intro e _
        by_cases heh : e.1 = h
        · simp [heh]
        · simp [heh]
      rw [hsame]
      exact hnd
    · rw [if_neg hlt]
      exact hnd

theorem innerFold_lookup (m : String → String → ℚ) (v : String) :
    ∀ (hiddens : List String), hiddens.Nodup →
      ∀ (acc : List (String × String × ℚ)) (h : String),
      lookupA (hiddens.foldl (fun acc2 hidden =>
          let area := areaLookup m v hidden
          if 0 < area then updateBest acc2 hidden v area else acc2) acc) h =
        if h ∈ hiddens then updStep (lookupA acc h) v (areaLookup m v h)
        else lookupA acc h := by
  intro hiddens
  induction hiddens with
  | nil =>
    intro _ acc h
    simp
  | cons h2 t ih =>
    intro hnd acc h
    have hnd2 := List.nodup_cons.mp hnd
    simp only [List.foldl_cons]
    rw [ih hnd2.2]
    by_cases hmem : h ∈ h2 :: t
    · rcases List.mem_cons.mp hmem with rfl | ht
      · rw [if_pos hmem]
        rw [if_neg hnd2.1]
        by_cases hpos : 0 < areaLookup m v h
        · rw [if_pos hpos]
          exact lookupA_updateBest_self acc h v _ hpos
        · rw [if_neg hpos]
          simp [updStep, hpos]
      · rw [if_pos hmem, if_pos ht]
        have hne : h ≠ h2 := by
          intro hcontra
          exact hnd2.1 (hcontra ▸ ht)
        by_cases hpos : 0 < areaLookup m v h2
        · rw [if_pos hpos]
          rw [lookupA_updateBest_ne acc h2 v _ h hne]
        · rw [if_neg hpos]
    · rw [if_neg hmem]
      have hne : h ≠ h2 := fun hcontra => hmem (hcontra ▸ List.mem_cons_self h2 t)
      have hnt : h ∉ t := fun hcontra => hmem (List.mem_cons_of_mem h2 hcontra)
      rw [if_neg hnt]
      by_cases hpos : 0 < areaLookup m v h2
      · rw [if_pos hpos]
        exact lookupA_updateBest_ne acc h2 v _ h hne
      · rw [if_neg hpos]

theorem hiddenToBestVisible_lookup (m : String → String → ℚ)
    (visibles hiddens : List String) (hnd : hiddens.Nodup) (h : String) :
    lookupA (hiddenToBestVisible m visibles hiddens) h =
      if h ∈ hiddens then bestVisibleFold m visibles h else none := by
  have aux : ∀ (vs : List String) (acc : List (String × String × ℚ)),
      lookupA (vs.foldl (fun acc visible =>
          hiddens.foldl (fun acc2 hidden =>
            let area := areaLookup m visible hidden
            if 0 < area then updateBest acc2 hidden visible area else acc2) acc) acc) h =
        if h ∈ hiddens then
          vs.foldl (fun cur v => updStep cur v (areaLookup m v h)) (lookupA acc h)
        else lookupA acc h := by
    intro vs
    induction vs with
    | nil =>
      intro acc
      by_cases hmem : h ∈ hiddens
      · rw [if_pos hmem]; rfl
      · rw [if_neg hmem]; rfl
    | cons v vs ih =>
      intro acc
      simp only [List.foldl_cons]
      rw [ih]
      by_cases hmem : h ∈ hiddens
      · rw [if_pos hmem, if_pos hmem]
        rw [innerFold_lookup m v hiddens hnd acc h, if_pos hmem]
      · rw [if_neg hmem, if_neg hmem]
        rw [innerFold_lookup m v hiddens hnd acc h, if_neg hmem]
  rw [hiddenToBestVisible, aux visibles []]
  by_cases hmem : h ∈ hiddens
  · rw [if_pos hmem, if_pos hmem]
    rfl
  · rw [if_neg hmem, if_neg hmem]
    rfl

theorem lookupA_nil {α β : Type} [DecidableEq α] (x : α) :
    lookupA ([] : List (α × β)) x = none := rfl

theorem lookupA_cons {α β : Type} [DecidableEq α] (k : α) (v : β) (t : List (α × β))
    (x : α) : lookupA ((k, v) :: t) x = if k = x then some v else lookupA t x := rfl

theorem hiddenToBestVisible_keys_nodup (m : String → String → ℚ)
    (visibles hiddens : List String) :
    ((hiddenToBestVisible m visibles hiddens).map (·.1)).Nodup := by
  have auxInner : ∀ (hs : List String) (v : String) (acc : List (String × String × ℚ)),
      (acc.map (·.1)).Nodup →
      ((hs.foldl (fun acc2 hidden =>
          let area := areaLookup m v hidden
          if 0 < area then updateBest acc2 hidden v area else acc2) acc).map (·.1)).Nodup := by
    intro hs v
    induction hs with
    | nil => intro acc hacc; exact hacc
    | cons h2 t ih =>
      intro acc hacc
      simp only [List.foldl_cons]
      apply ih
      by_cases hpos : 0 < areaLookup m v h2
      · rw [if_pos hpos]
        exact updateBest_keys_nodup h2 v _ hacc
      · rw [if_neg hpos]
        exact hacc
  have auxOuter : ∀ (vs : List String) (acc : List (String × String × ℚ)),
      (acc.map (·.1)).Nodup →
      ((vs.foldl (fun acc visible =>
          hiddens.foldl (fun acc2 hidden =>
            let area := areaLookup m visible hidden
            if 0 < area then updateBest acc2 hidden visible area else acc2) acc) acc).map
        (·.1)).Nodup := by
    intro vs
    induction vs with
    | nil => intro acc hacc; exact hacc
    | cons v t ih =>
      intro acc hacc
      simp only [List.foldl_cons]
      exact ih _ (auxInner hiddens v acc hacc)
  exact auxOuter visibles [] (by simp)

theorem mem_iff_lookupA {α β : Type} [DecidableEq α] {l : List (α × β)}
    (hnd : (l.map (·.1)).Nodup) (e : α × β) :
    e ∈ l ↔ lookupA l e.1 = some e.2 := by
  induction l with
  | nil => simp [lookupA_nil]
  | cons f t ih =>
    obtain ⟨k2, v2⟩ := f
    rw [List.map_cons] at hnd
    have hnd2 := List.nodup_cons.mp hnd
    constructor
    · intro hmem
      rcases List.mem_cons.mp hmem with rfl | hmem2
      · rw [lookupA_cons, if_pos rfl]
      · rw [lookupA_cons]
        by_cases hk : k2 = e.1
        · exfalso
          exact hnd2.1 (hk ▸ List.mem_map_of_mem (·.1) hmem2)
        · rw [if_neg hk]
          exact (ih hnd2.2).mp hmem2
    · intro hlk
      rw [lookupA_cons] at hlk
      by_cases hk : k2 = e.1
      · rw [if_pos hk] at hlk
        injection hlk with hv
        have : e = (k2, v2) := by
          obtain ⟨e1, e2⟩ := e
          simp only at hk hv
          rw [hk, hv]
        exact this ▸ List.mem_cons_self _ _
      · rw [if_neg hk] at hlk
        exact List.mem_cons_of_mem _ ((ih hnd2.2).mpr hlk)

theorem filterMap_best_keys_sub (m : String → String → ℚ) (visibles : List String) :
    ∀ (hiddens : List String) (x : String),
      x ∈ (hiddens.filterMap (fun h2 =>
        (bestVisibleFold m visibles h2).map (fun va => (h2, va)))).map (·.1) →
      x ∈ hiddens := by
  intro hiddens
  induction hiddens with
  | nil => intro x hx; simpa using hx
  | cons h2 t ih =>
    intro x hx
    rw [List.filterMap_cons] at hx
    cases hbv : bestVisibleFold m visibles h2 with
    | none =>
      rw [hbv] at hx
      simp only [Option.map_none'] at hx
      exact List.mem_cons_of_mem h2 (ih x hx)
    | some va =>
      rw [hbv] at hx
      simp only [Option.map_some', List.map_cons] at hx
      rcases List.mem_cons.mp hx with rfl | hx2
      · exact List.mem_cons_self _ _
      · exact List.mem_cons_of_mem h2 (ih x hx2)

theorem filterMap_best_keys_nodup (m : String → String → ℚ) (visibles : List String) :
    ∀ (hiddens : List String), hiddens.Nodup →
      ((hiddens.filterMap (fun h2 =>
        (bestVisibleFold m visibles h2).map (fun va => (h2, va)))).map (·.1)).Nodup := by
  intro hiddens
  induction hiddens with
  | nil => intro _; exact List.nodup_nil
  | cons h2 t ih =>
    intro hnd
    have hnd2 := List.nodup_cons.mp hnd
    rw [List.filterMap_cons]
    cases hbv : bestVisibleFold m visibles h2 with
    | none =>
      simp only [Option.map_none']
      exact ih hnd2.2
    | some va =>
      simp only [Option.map_some', List.map_cons]
      rw [List.nodup_cons]
      exact ⟨fun hx => hnd2.1 (filterMap_best_keys_sub m visibles t h2 hx), ih hnd2.2⟩

theorem lookupA_filterMap_best (m : String → String → ℚ) (visibles : List String) :
    ∀ (hiddens : List String), hiddens.Nodup → ∀ (h : String),
      lookupA (hiddens.filterMap (fun h2 =>
          (bestVisibleFold m visibles h2).map (fun va => (h2, va)))) h =
        (if h ∈ hiddens then bestVisibleFold m visibles h else none) := by
  intro hiddens
  induction hiddens with
  | nil => intro _ h; simp [lookupA_nil]
  | cons h2 t ih =>
    intro hnd h
    have hnd2 := List.nodup_cons.mp hnd
    rw [List.filterMap_cons]
    by_cases hh : h = h2
    · subst hh
      rw [if_pos (List.mem_cons_self h t)]
      cases hbv : bestVisibleFold m visibles h with
      | none =>
        simp only [Option.map_none']
        rw [ih hnd2.2 h, if_neg hnd2.1]
      | some va =>
        simp only [Option.map_some']
        rw [lookupA_cons, if_pos rfl]
    · cases hbv : bestVisibleFold m visibles h2 with
      | none =>
        simp only [Option.map_none']
        rw [ih hnd2.2 h]
        by_cases hmem : h ∈ t
        · rw [if_pos hmem, if_pos (List.mem_cons_of_mem h2 hmem)]
        · rw [if_neg hmem, if_neg (by
            intro hc
            rcases List.mem_cons.mp hc with rfl | hc2
            · exact hh rfl
            · exact hmem hc2)]
      | some va =>
        simp only [Option.map_some']
        rw [lookupA_cons, if_neg (fun hc => hh hc.symm), ih hnd2.2 h]
        by_cases hmem : h ∈ t
        · rw [if_pos hmem, if_pos (List.mem_cons_of_mem h2 hmem)]
        · rw [if_neg hmem, if_neg (by
            intro hc
            rcases List.mem_cons.mp hc with rfl | hc2
            · exact hh rfl
            · exact hmem hc2)]

theorem hiddenToBestVisible_perm (m : String → String → ℚ)
    (visibles hiddens : List String) (hnd : hiddens.Nodup) :
    List.Perm (hiddenToBestVisible m visibles hiddens)
      (hiddens.filterMap (fun h2 =>
        (bestVisibleFold m visibles h2).map (fun va => (h2, va)))) := by
  apply List.perm_of_nodup_nodup_toFinset_eq
  · exact List.Nodup.of_map _ (hiddenToBestVisible_keys_nodup m visibles hiddens)
  · exact List.Nodup.of_map _ (filterMap_best_keys_nodup m visibles hiddens hnd)
  · ext e
    simp only [List.mem_toFinset]
    rw [mem_iff_lookupA (hiddenToBestVisible_keys_nodup m visibles hiddens) e,
      mem_iff_lookupA (filterMap_best_keys_nodup m visibles hiddens hnd) e,
      hiddenToBestVisible_lookup m visibles hiddens hnd e.1,
      lookupA_filterMap_best m visibles hiddens hnd e.1]

theorem count_attributed_to_fold (m : String → String → ℚ)
    (visibles hiddens : List String) (hnd : hiddens.Nodup) (v : String) :
    (hiddenToBestVisible m visibles hiddens).countP (fun e => decide (e.2.1 = v)) =
      hiddens.countP (fun h =>
        decide ((bestVisibleFold m visibles h).map Prod.fst = some v)) := by
  rw [(hiddenToBestVisible_perm m visibles hiddens hnd).countP_eq]
  rw [List.countP_filterMap]
  apply List.countP_congr
  intro h _
  cases hbv : bestVisibleFold m visibles h with
  | none => simp
  | some va => simp

theorem lookupA_bumpCount_self (acc : List (String × Nat)) (k : String) :
    lookupA (bumpCount acc k) k = some ((lookupA acc k).getD 0 + 1) := by
  unfold bumpCount
  cases hlk : lookupA acc k with
  | none =>
    dsimp only
    rw [lookupA_append, hlk]
    simp [lookupA_cons, lookupA_nil]
  | some n =>
    dsimp only
    rw [lookupA_map_replace_self, hlk]
    rfl

theorem lookupA_bumpCount_ne (acc : List (String × Nat)) (k x : String) (hx : x ≠ k) :
    lookupA (bumpCount acc k) x = lookupA acc x := by
  unfold bumpCount
  cases hlk : lookupA acc k with
  | none =>
    dsimp only
    rw [lookupA_append]
    cases hx2 : lookupA acc x with
    | none => simp [lookupA_cons, lookupA_nil, Ne.symm hx]
    | some vx => rfl
  | some n =>
    dsimp only
    exact lookupA_map_replace_ne acc k (n + 1) x hx

theorem countFold_lookup (v : String) (L : List (String × String × ℚ)) :
    lookupA (L.foldl (fun acc e => bumpCount acc e.2.1) []) v =
      (if L.countP (fun e => decide (e.2.1 = v)) = 0 then none
       else some (L.countP (fun e => decide (e.2.1 = v)))) := by
  induction L using List.reverseRecOn with
  | nil => rfl
  | append_singleton l e ih =>
    rw [List.foldl_append, List.foldl_cons, List.foldl_nil, List.countP_append]
    by_cases hev : e.2.1 = v
    · have hce : List.countP (fun e => decide (e.2.1 = v)) [e] = 1 := by
        simp [List.countP_cons, hev]
      rw [hce, hev, lookupA_bumpCount_self, ih]
      by_cases hc : l.countP (fun e => decide (e.2.1 = v)) = 0
      · rw [if_pos hc, hc]
        simp
      · rw [if_neg hc, if_neg (by omega)]
        simp
    · have hce : List.countP (fun e => decide (e.2.1 = v)) [e] = 0 := by
        simp [List.countP_cons, hev]
      rw [hce, lookupA_bumpCount_ne _ _ _ (fun hc => hev hc.symm), ih]
      simp

theorem lookupA_map_add_one (L : List (String × Nat)) (v : String) :
    lookupA (L.map (fun e => (e.1, e.2 + 1))) v = (lookupA L v).map (· + 1) := by
  induction L with
  | nil => rfl
  | cons e t ih =>
    obtain ⟨k2, n2⟩ := e
    simp only [List.map_cons]
    rw [lookupA_cons, lookupA_cons]
    by_cases hk : k2 = v
    · rw [if_pos hk, if_pos hk]
      rfl
    · rw [if_neg hk, if_neg hk]
      exact ih

theorem maxAreaWith_append (m : String → String → ℚ) (vs : List String) (h w : String) :
    maxAreaWith m (vs ++ [w]) h = max (maxAreaWith m vs h) (areaLookup m w h) := by
  unfold maxAreaWith
  rw [List.map_append, List.foldr_append]
  simp only [List.map_cons, List.map_nil, List.foldr_cons, List.foldr_nil]
  have aux : ∀ (l : List ℚ) (b c : ℚ), l.foldr max (max b c) = max (l.foldr max b) c := by
    intro l
    induction l with
    | nil => intro b c; rfl
    | cons x t ih =>
      intro b c
      simp only [List.foldr_cons, ih]
      exact (max_assoc x _ c).symm
  rw [show max (areaLookup m w h) 0 = max 0 (areaLookup m w h) from max_comm _ _]
  exact aux _ 0 _

theorem le_maxAreaWith (m : String → String → ℚ) (visibles : List String) (h : String) :
    ∀ x ∈ visibles, areaLookup m x h ≤ maxAreaWith m visibles h := by
  unfold maxAreaWith
  induction visibles with
  | nil => intro x hx; cases hx
  | cons v t ih =>
    intro x hx
    simp only [List.map_cons, List.foldr_cons]
    rcases List.mem_cons.mp hx with rfl | hx2
    · exact le_max_left _ _
    · exact le_trans (ih x hx2) (le_max_right _ _)

theorem bestVisibleFold_spec (m : String → String → ℚ) (h : String) :
    ∀ (vs : List String),
      (bestVisibleFold m vs h = none ∧ maxAreaWith m vs h = 0 ∧
        ∀ x ∈ vs, areaLookup m x h ≤ 0) ∨
      (∃ v a, bestVisibleFold m vs h = some (v, a) ∧ 0 < a ∧ a = maxAreaWith m vs h ∧
        vs.find? (fun x => areaLookup m x h == maxAreaWith m vs h) = some v) := by
  intro vs
  induction vs using List.reverseRecOn with
  | nil => left; exact ⟨rfl, rfl, by intro x hx; cases hx⟩
  | append_singleton vs w ih =>
    have hstep : bestVisibleFold m (vs ++ [w]) h =
        updStep (bestVisibleFold m vs h) w (areaLookup m w h) := by
      unfold bestVisibleFold
      rw [List.foldl_append, List.foldl_cons, List.foldl_nil]
    have hmax := maxAreaWith_append m vs h w
    rcases ih with ⟨hbv, hmx, hle⟩ | ⟨v, a, hbv, hpos, hmxa, hfind⟩
    · by_cases hw : 0 < areaLookup m w h
      · right
        refine ⟨w, areaLookup m w h, ?_, hw, ?_, ?_⟩
        · rw [hstep, hbv]; simp [updStep, hw]
        · rw [hmax, hmx, max_eq_right (le_of_lt hw)]
        · rw [hmax, hmx, max_eq_right (le_of_lt hw)]
          rw [List.find?_append]
          have hnone : vs.find? (fun x => areaLookup m x h == areaLookup m w h) = none := by
            apply List.find?_eq_none.mpr
            intro x hx
            simp only [beq_iff_eq]
            intro hcontra
            rw [← hcontra] at hw
            exact absurd (hle x hx) (not_le.mpr hw)
          rw [hnone]
          simp [List.find?_cons]
      · left
        refine ⟨?_, ?_, ?_⟩
        · rw [hstep, hbv]; simp [updStep, hw]
        · rw [hmax, hmx, max_eq_left (le_of_not_lt hw)]
        · intro x hx
          rcases List.mem_append.mp hx with hx2 | hx2
          · exact hle x hx2
          · have hxw : x = w := by simpa using hx2
            subst hxw
            exact le_of_not_lt hw
    · by_cases hw : 0 < areaLookup m w h
      · by_cases hlt : a < areaLookup m w h
        · right
          refine ⟨w, areaLookup m w h, ?_, hw, ?_, ?_⟩
          · rw [hstep, hbv]; simp [updStep, hw, hlt]
          · rw [hmax, ← hmxa, max_eq_right (le_of_lt hlt)]
          · rw [hmax, ← hmxa, max_eq_right (le_of_lt hlt)]
            rw [List.find?_append]
            have hnone : vs.find? (fun x => areaLookup m x h == areaLookup m w h) = none := by
              apply List.find?_eq_none.mpr
              intro x hx
              simp only [beq_iff_eq]
              have hxle := le_maxAreaWith m vs h x hx
              rw [← hmxa] at hxle
              intro hcontra
              rw [hcontra] at hxle
              exact absurd hlt (not_lt.mpr hxle)
            rw [hnone]
            simp [List.find?_cons]
        · right
          refine ⟨v, a, ?_, hpos, ?_, ?_⟩
          · rw [hstep, hbv]; simp [updStep, hw, hlt]
          · rw [hmax, ← hmxa, max_eq_left (le_of_not_lt hlt)]
          · rw [hmax, ← hmxa, max_eq_left (le_of_not_lt hlt)]
            rw [← hmxa] at hfind
            rw [List.find?_append, hfind]
            rfl
      · right
        refine ⟨v, a, ?_, hpos, ?_, ?_⟩
        · rw [hstep, hbv]; simp [updStep, hw]
        · rw [hmax, ← hmxa,
            max_eq_left (le_trans (le_of_not_lt hw) (le_of_lt hpos))]
        · rw [hmax, ← hmxa,
            max_eq_left (le_trans (le_of_not_lt hw) (le_of_lt hpos))]
          rw [← hmxa] at hfind
          rw [List.find?_append, hfind]
          rfl

theorem attributedTo_eq_fold (m : String → String → ℚ) (visibles : List String)
    (h : String) :
    attributedTo m visibles h = (bestVisibleFold m visibles h).map Prod.fst := by
  rcases bestVisibleFold_spec m h visibles with ⟨hbv, hmx, -⟩ | ⟨v, a, hbv, hpos, hmxa, hfind⟩
  · rw [hbv, attributedTo, if_neg]
    · rfl
    · rw [hmx]
      exact lt_irrefl 0
  · rw [hbv, attributedTo, if_pos]
    · exact hfind
    · rw [← hmxa]
      exact hpos

theorem buildHiddenCounts_lookup (m : String → String → ℚ)
    (visibles hiddens : List String) (hnd : hiddens.Nodup) (v : String) :
    lookupA (buildHiddenCounts (hiddenToBestVisible m visibles hiddens)) v =
      (if (hiddens.filter (fun h => decide (attributedTo m visibles h = some v))).length = 0
       then none
       else some ((hiddens.filter (fun h =>
          decide (attributedTo m visibles h = some v))).length + 1)) := by
  unfold buildHiddenCounts
  rw [lookupA_map_add_one, countFold_lookup,
    count_attributed_to_fold m visibles hiddens hnd v]
  have hcong : hiddens.countP (fun h =>
      decide ((bestVisibleFold m visibles h).map Prod.fst = some v)) =
      hiddens.countP (fun h => decide (attributedTo m visibles h = some v)) := by
    apply List.countP_congr
    intro h _
    rw [attributedTo_eq_fold]
  rw [hcong, List.countP_eq_length_filter]
  by_cases hc : (hiddens.filter
      (fun h => decide (attributedTo m visibles h = some v))).length = 0
  · rw [if_pos hc, if_pos hc]
    rfl
  · rw [if_neg hc, if_neg hc]
    rfl

/-- C2: the greedy selector's `hiddenCountsMap` is exactly largest-area
attribution: every hidden sensor with a positive stored overlap area
against some visible sensor is attributed to the visible sensor with the
largest such area (first-found wins ties); each visible sensor's entry
equals the number of hidden sensors attributed to it plus one
(self-inclusion added at the end); a visible sensor with no attributed
hidden sensor has no entry at all. -/
theorem c2_hidden_count_attribution (overlap : Sensor → Sensor → Bool)
    (area : Sensor → Sensor → ℚ) (dataArray : List Sensor)
    (curPresentSensors : Option (List String))
    (hnodup : (dataArray.map (·.sensor)).Nodup) (v : String) :
    lookupA (filterOverlappingRosesGreedy overlap area dataArray
        curPresentSensors).hiddenCountsMap v =
      (if ((filterOverlappingRosesGreedy overlap area dataArray
            curPresentSensors).filteredOutSensors.filter (fun h =>
              decide (attributedTo (intersectMatrix overlap area dataArray)
                (filterOverlappingRosesGreedy overlap area dataArray
                  curPresentSensors).filteredInSensors h = some v))).length = 0
       then none
       else some (((filterOverlappingRosesGreedy overlap area dataArray
            curPresentSensors).filteredOutSensors.filter (fun h =>
              decide (attributedTo (intersectMatrix overlap area dataArray)
                (filterOverlappingRosesGreedy overlap area dataArray
                  curPresentSensors).filteredInSensors h = some v))).length + 1)) := by
  by_cases hD : dataArray = []
  · subst hD
    simp [filterOverlappingRosesGreedy, lookupA_nil]
  · rw [filterGreedy_eq overlap area dataArray curPresentSensors hD]
    exact buildHiddenCounts_lookup (intersectMatrix overlap area dataArray) _ _
      (hnodup.filter _) v

/-- Witness for C2 at a concrete two-glyph input with no overlaps. -/
theorem c2_hidden_count_attribution_witness :
    (([⟨"a", 0, 0⟩, ⟨"b", 5, 5⟩] : List Sensor).map (·.sensor)).Nodup ∧
    lookupA (filterOverlappingRosesGreedy (fun _ _ => false) (fun _ _ => 0)
        [⟨"a", 0, 0⟩, ⟨"b", 5, 5⟩] none).hiddenCountsMap "a" =
      (if ((filterOverlappingRosesGreedy (fun _ _ => false) (fun _ _ => 0)
            [⟨"a", 0, 0⟩, ⟨"b", 5, 5⟩] none).filteredOutSensors.filter (fun h =>
              decide (attributedTo (intersectMatrix (fun _ _ => false) (fun _ _ => 0)
                [⟨"a", 0, 0⟩, ⟨"b", 5, 5⟩])
                (filterOverlappingRosesGreedy (fun _ _ => false) (fun _ _ => 0)
                  [⟨"a", 0, 0⟩, ⟨"b", 5, 5⟩] none).filteredInSensors h =
                  some "a"))).length = 0
       then none
       else some (((filterOverlappingRosesGreedy (fun _ _ => false) (fun _ _ => 0)
            [⟨"a", 0, 0⟩, ⟨"b", 5, 5⟩] none).filteredOutSensors.filter (fun h =>
              decide (attributedTo (intersectMatrix (fun _ _ => false) (fun _ _ => 0)
                [⟨"a", 0, 0⟩, ⟨"b", 5, 5⟩])
                (filterOverlappingRosesGreedy (fun _ _ => false) (fun _ _ => 0)
                  [⟨"a", 0, 0⟩, ⟨"b", 5, 5⟩] none).filteredInSensors h =
                  some "a"))).length + 1)) :=
  ⟨by decide,
   c2_hidden_count_attribution (fun _ _ => false) (fun _ _ => 0)
     [⟨"a", 0, 0⟩, ⟨"b", 5, 5⟩] none (by decide) "a"⟩

theorem natDigits_ne_nil (n : Nat) : natDigits n ≠ [] := by
  rw [natDigits]
  by_cases h : n < 10
  · rw [if_pos h]
    exact List.cons_ne_nil _ _
  · rw [if_neg h]
    intro hc
    have hlc := congrArg List.length hc
    simp at hlc

theorem digitChar_toNat (d : Nat) (h : d < 10) :
    (Char.ofNat (48 + d)).toNat = 48 + d := by
  interval_cases d <;> decide

theorem digitChar_isDigit (d : Nat) (h : d < 10) :
    (Char.ofNat (48 + d)).isDigit = true := by
  interval_cases d <;> decide

theorem natDigits_isDigit (n : Nat) : ∀ c ∈ natDigits n, c.isDigit = true := by
  induction n using Nat.strong_induction_on with
  | _ n ih =>
    rw [natDigits]
    by_cases h : n < 10
    · rw [if_pos h]
      intro c hc
      have hcn : c = Char.ofNat (48 + n) := by simpa using hc
      subst hcn
      exact digitChar_isDigit n h
    · rw [if_neg h]
      intro c hc
      rcases List.mem_append.mp hc with hc1 | hc2
      · exact ih (n / 10) (Nat.div_lt_self (by omega) (by omega)) c hc1
      · have hcn : c = Char.ofNat (48 + n % 10) := by simpa using hc2
        subst hcn
        exact digitChar_isDigit (n % 10) (Nat.mod_lt n (by omega))

theorem natDigits_foldl (n : Nat) :
    ∀ a : Nat, (natDigits n).foldl (fun a c => a * 10 + (c.toNat - 48)) a =
      a * 10 ^ (natDigits n).length + n := by
  induction n using Nat.strong_induction_on with
  | _ n ih =>
    intro a
    rw [natDigits]
    by_cases h : n < 10
    · rw [if_pos h]
      simp only [List.foldl_cons, List.foldl_nil, List.length_cons, List.length_nil]
      rw [digitChar_toNat n h]
      rw [show (10 : Nat) ^ (0 + 1) = 10 by norm_num]
      omega
    · rw [if_neg h]
      rw [List.foldl_append, List.length_append]
      rw [ih (n / 10) (Nat.div_lt_self (by omega) (by omega)) a]
      simp only [List.foldl_cons, List.foldl_nil, List.length_cons, List.length_nil]
      rw [digitChar_toNat (n % 10) (Nat.mod_lt n (by omega))]
      rw [pow_succ, ← mul_assoc]
      generalize a * 10 ^ (natDigits (n / 10)).length = t
      omega

theorem parseNatAt_digits (n : Nat) (rest : List Char)
    (hrest : ∀ c, rest.head? = some c → c.isDigit = false) :
    parseNatAt (natDigits n ++ rest) = some (n, rest) := by
  have htail : rest.takeWhile Char.isDigit = [] ∧ rest.dropWhile Char.isDigit = rest := by
    cases rest with
    | nil => exact ⟨rfl, rfl⟩
    | cons c t =>
      have hc : Char.isDigit c = false := hrest c rfl
      constructor
      · exact List.takeWhile_cons_of_neg (by simp [hc])
      · exact List.dropWhile_cons_of_neg (by simp [hc])
  have htake : (natDigits n ++ rest).takeWhile Char.isDigit = natDigits n := by
    rw [List.takeWhile_append_of_pos (natDigits_isDigit n), htail.1, List.append_nil]
  have hdrop : (natDigits n ++ rest).dropWhile Char.isDigit = rest := by
    rw [List.dropWhile_append_of_pos (natDigits_isDigit n), htail.2]
  unfold parseNatAt
  rw [htake, hdrop]
  cases hd : natDigits n with
  | nil => exact absurd hd (natDigits_ne_nil n)
  | cons d ds =>
    dsimp only
    rw [← hd, natDigits_foldl n 0]
    simp

theorem string_mk_data (s : String) : String.mk s.data = s := rfl

theorem takeStr_roundtrip (s : String) (rest : List Char)
    (hsafe : ∀ c ∈ s.data, c ≠ '"') :
    takeStr (s.data ++ '"' :: rest) = some (s, rest) := by
  unfold takeStr
  have htake : (s.data ++ '"' :: rest).takeWhile (fun c => decide (c ≠ '"')) = s.data := by
    rw [List.takeWhile_append_of_pos (by intro a ha; simpa using hsafe a ha)]
    rw [List.takeWhile_cons_of_neg (by simp), List.append_nil]
  have hdrop : (s.data ++ '"' :: rest).dropWhile (fun c => decide (c ≠ '"')) =
      '"' :: rest := by
    rw [List.dropWhile_append_of_pos (by intro a ha; simpa using hsafe a ha)]
    rw [List.dropWhile_cons_of_neg (by simp)]
  rw [hdrop]
  dsimp only
  rw [if_pos rfl, htake, string_mk_data]

theorem parseStrItems_cons_eq (cs : List Char) {s : String} {rest : List Char}
    (htak : takeStr cs = some (s, rest)) :
    parseStrItems ('"' :: cs) =
      (match rest with
       | [] => none
       | c2 :: r2 =>
         if c2 = ',' then
           match parseStrItems r2 with
           | none => none
           | some (l, r3) => some (s :: l, r3)
         else if c2 = ']' then some ([s], r2)
         else none) := by
  rw [parseStrItems.eq_def]
  dsimp only
  rw [if_pos rfl]
  split
  · rename_i heq
    exact absurd (htak.symm.trans heq) (by simp)
  · rename_i s' rest' heq
    have hcomb := htak.symm.trans heq
    injection hcomb with h'
    injection h' with hA hB
    subst hA
    subst hB
    rfl

theorem parseStrItems_roundtrip :
    ∀ (l : List String), l ≠ [] → (∀ s ∈ l, ∀ c ∈ s.data, c ≠ '"') →
    ∀ (rest : List Char),
      parseStrItems (printStrItems l ++ ']' :: rest) = some (l, rest) := by
  intro l
  induction l with
  | nil => intro h; exact absurd rfl h
  | cons s t ih =>
    intro _ hsafe rest
    cases t with
    | nil =>
      have heq : printStrItems [s] ++ ']' :: rest =
          '"' :: (s.data ++ '"' :: ']' :: rest) := by
        show quoteStr s ++ ']' :: rest = _
        simp [quoteStr]
      rw [heq]
      rw [parseStrItems_cons_eq _
        (takeStr_roundtrip s (']' :: rest) (hsafe s (List.mem_cons_self s [])))]
      dsimp only
      rw [if_neg (by decide), if_pos rfl]
    | cons s2 t2 =>
      have heq : printStrItems (s :: s2 :: t2) ++ ']' :: rest =
          '"' :: (s.data ++ '"' :: ',' :: (printStrItems (s2 :: t2) ++ ']' :: rest)) := by
        show quoteStr s ++ ',' :: printStrItems (s2 :: t2) ++ ']' :: rest = _
        simp [quoteStr]
      rw [heq]
      rw [parseStrItems_cons_eq _
        (takeStr_roundtrip s _ (hsafe s (List.mem_cons_self s (s2 :: t2))))]
      dsimp only
      rw [if_pos rfl]
      rw [ih (List.cons_ne_nil s2 t2)
        (fun x hx => hsafe x (List.mem_cons_of_mem s hx)) rest]

theorem parseStrArr_roundtrip (l : List String)
    (hsafe : ∀ s ∈ l, ∀ c ∈ s.data, c ≠ '"') (rest : List Char) :
    parseStrArr (printStrArr l ++ rest) = some (l, rest) := by
  cases l with
  | nil =>
    show parseStrArr ('[' :: [']'] ++ rest) = some ([], rest)
    rfl
  | cons s t =>
    have hstart : ∃ X, printStrItems (s :: t) = '"' :: X := by
      cases t with
      | nil => exact ⟨s.data ++ ['"'], rfl⟩
      | cons s2 t2 =>
        refine ⟨s.data ++ ['"'] ++ ',' :: printStrItems (s2 :: t2), ?_⟩
        show quoteStr s ++ ',' :: printStrItems (s2 :: t2) = _
        simp [quoteStr]
    obtain ⟨X, hX⟩ := hstart
    have heq : printStrArr (s :: t) ++ rest =
        '[' :: (printStrItems (s :: t) ++ ']' :: rest) := by
      show ('[' :: printStrItems (s :: t) ++ [']']) ++ rest = _
      simp
    rw [heq, hX, List.cons_append]
    show parseStrItems ('"' :: (X ++ ']' :: rest)) = some (s :: t, rest)
    rw [show ('"' :: (X ++ ']' :: rest)) = ('"' :: X) ++ ']' :: rest by simp, ← hX]
    exact parseStrItems_roundtrip (s :: t) (List.cons_ne_nil s t) hsafe rest

theorem stripExpect_pre : ∀ (pre rest : List Char),
    stripExpect pre (pre ++ rest) = some rest := by
  intro pre
  induction pre with
  | nil => intro rest; rfl
  | cons c t ih =>
    intro rest
    rw [List.cons_append, stripExpect]
    rw [if_pos rfl]
    exact ih rest

theorem parseNatEntries_step_comma (cs r2 r4 : List Char) (k : String) (n : Nat)
    (htak : takeStr cs = some (k, ':' :: r2))
    (hpn : parseNatAt r2 = some (n, ',' :: r4)) :
    parseNatEntries ('"' :: cs) =
      (match parseNatEntries r4 with
       | none => none
       | some (l, r5) => some ((k, n) :: l, r5)) := by
  rw [parseNatEntries.eq_def]
  dsimp only
  rw [if_pos rfl]
  split
  · rename_i heq
    exact absurd (htak.symm.trans heq) (by simp)
  · rename_i k' rest' heq
    have hcomb := htak.symm.trans heq
    injection hcomb with h'
    injection h' with hA hB
    subst hA
    subst hB
    dsimp only
    rw [if_pos rfl]
    split
    · rename_i heq2
      exact absurd (hpn.symm.trans heq2) (by simp)
    · rename_i n' r3' heq2
      have hcomb2 := hpn.symm.trans heq2
      injection hcomb2 with h2'
      injection h2' with hA2 hB2
      subst hA2
      subst hB2
      dsimp only
      rw [if_pos rfl]

theorem parseNatEntries_step_rbrace (cs r2 r4 : List Char) (k : String) (n : Nat)
    (htak : takeStr cs = some (k, ':' :: r2))
    (hpn : parseNatAt r2 = some (n, rbrace :: r4)) :
    parseNatEntries ('"' :: cs) = some ([(k, n)], r4) := by
  rw [parseNatEntries.eq_def]
  dsimp only
  rw [if_pos rfl]
  split
  · rename_i heq
    exact absurd (htak.symm.trans heq) (by simp)
  · rename_i k' rest' heq
    have hcomb := htak.symm.trans heq
    injection hcomb with h'
    injection h' with hA hB
    subst hA
    subst hB
    dsimp only
    rw [if_pos rfl]
    split
    · rename_i heq2
      exact absurd (hpn.symm.trans heq2) (by simp)
    · rename_i n' r3' heq2
      have hcomb2 := hpn.symm.trans heq2
      injection hcomb2 with h2'
      injection h2' with hA2 hB2
      subst hA2
      subst hB2
      dsimp only
      rw [if_neg (by decide), if_pos rfl]

theorem parseNatEntries_roundtrip :
    ∀ (l : List (String × Nat)), l ≠ [] → (∀ e ∈ l, ∀ c ∈ e.1.data, c ≠ '"') →
    ∀ (rest : List Char),
      parseNatEntries (printNatEntries l ++ rbrace :: rest) = some (l, rest) := by
  intro l
  induction l with
  | nil => intro h; exact absurd rfl h
  | cons e t ih =>
    obtain ⟨k, n⟩ := e
    intro _ hsafe rest
    cases t with
    | nil =>
      have heq : printNatEntries [(k, n)] ++ rbrace :: rest =
          '"' :: (k.data ++ '"' :: ':' :: (natDigits n ++ rbrace :: rest)) := by
        show quoteStr k ++ ':' :: natDigits n ++ rbrace :: rest = _
        simp [quoteStr]
      rw [heq]
      rw [parseNatEntries_step_rbrace _ _ rest k n
        (takeStr_roundtrip k _ (hsafe (k, n) (List.mem_cons_self _ [])))
        (parseNatAt_digits n (rbrace :: rest)
          (by intro c hc; injection hc with h; subst h; decide))]
    | cons e2 t2 =>
      have heq : printNatEntries ((k, n) :: e2 :: t2) ++ rbrace :: rest =
          '"' :: (k.data ++ '"' :: ':' ::
            (natDigits n ++ ',' :: (printNatEntries (e2 :: t2) ++ rbrace :: rest))) := by
        show quoteStr k ++ ':' :: natDigits n ++ ',' :: printNatEntries (e2 :: t2) ++
          rbrace :: rest = _
        simp [quoteStr]
      rw [heq]
      rw [parseNatEntries_step_comma _ _ (printNatEntries (e2 :: t2) ++ rbrace :: rest) k n
        (takeStr_roundtrip k _ (hsafe (k, n) (List.mem_cons_self _ _)))
        (parseNatAt_digits n (',' :: (printNatEntries (e2 :: t2) ++ rbrace :: rest))
          (by intro c hc; injection hc with h; subst h; decide))]
      rw [ih (List.cons_ne_nil e2 t2)
        (fun x hx => hsafe x (List.mem_cons_of_mem (k, n) hx)) rest]

theorem parseNatObj_roundtrip (l : List (String × Nat))
    (hsafe : ∀ e ∈ l, ∀ c ∈ e.1.data, c ≠ '"') (rest : List Char) :
    parseNatObj (printNatObj l ++ rest) = some (l, rest) := by
  cases l with
  | nil =>
    show parseNatObj (lbrace :: [rbrace] ++ rest) = some ([], rest)
    rfl
  | cons e t =>
    have hstart : ∃ X, printNatEntries (e :: t) = '"' :: X := by
      obtain ⟨k, n⟩ := e
      cases t with
      | nil =>
        refine ⟨k.data ++ '"' :: ':' :: natDigits n, ?_⟩
        show quoteStr k ++ ':' :: natDigits n = _
        simp [quoteStr]
      | cons e2 t2 =>
        refine ⟨k.data ++ '"' :: ':' ::
          (natDigits n ++ ',' :: printNatEntries (e2 :: t2)), ?_⟩
        show quoteStr k ++ ':' :: natDigits n ++ ',' :: printNatEntries (e2 :: t2) = _
        simp [quoteStr]
    obtain ⟨X, hX⟩ := hstart
    have heq : printNatObj (e :: t) ++ rest =
        lbrace :: '"' :: (X ++ rbrace :: rest) := by
      show (lbrace :: printNatEntries (e :: t) ++ [rbrace]) ++ rest = _
      rw [hX]
      simp
    rw [heq]
    show parseNatEntries ('"' :: (X ++ rbrace :: rest)) = some (e :: t, rest)
    rw [show ('"' :: (X ++ rbrace :: rest)) = ('"' :: X) ++ rbrace :: rest by simp, ← hX]
    exact parseNatEntries_roundtrip (e :: t) (List.cons_ne_nil e t) hsafe rest

theorem parseFilterResult_roundtrip (r : FilterResult)
    (hout : ∀ s ∈ r.filteredOutSensors, ∀ c ∈ s.data, c ≠ '"')
    (hin : ∀ s ∈ r.filteredInSensors, ∀ c ∈ s.data, c ≠ '"')
    (hcnt : ∀ e ∈ r.hiddenCountsMap, ∀ c ∈ e.1.data, c ≠ '"') :
    parseFilterResult (stringifyFilterResult r) = some r := by
  have hdata : (stringifyFilterResult r).data =
      (lbrace :: quoteStr "filteredOutSensors" ++ [':']) ++
      (printStrArr r.filteredOutSensors ++
       ((',' :: quoteStr "filteredInSensors" ++ [':']) ++
        (printStrArr r.filteredInSensors ++
         ((',' :: quoteStr "hiddenCountsMap" ++ [':']) ++
          (printNatObj r.hiddenCountsMap ++ [rbrace]))))) := by
    show lbrace ::
      (quoteStr "filteredOutSensors" ++ ':' :: printStrArr r.filteredOutSensors ++
       ',' :: quoteStr "filteredInSensors" ++ ':' :: printStrArr r.filteredInSensors ++
       ',' :: quoteStr "hiddenCountsMap" ++ ':' :: printNatObj r.hiddenCountsMap) ++
      [rbrace] = _
    simp
  unfold parseFilterResult
  rw [hdata, stripExpect_pre]
  dsimp only
  rw [parseStrArr_roundtrip r.filteredOutSensors hout]
  dsimp only
  rw [stripExpect_pre]
  dsimp only
  rw [parseStrArr_roundtrip r.filteredInSensors hin]
  dsimp only
  rw [stripExpect_pre]
  dsimp only
  rw [parseNatObj_roundtrip r.hiddenCountsMap hcnt]
  dsimp only
  rw [if_pos rfl]

theorem stringifyFilterResult_ne_empty (r : FilterResult) :
    stringifyFilterResult r ≠ "" := by
  intro h
  have hdat := congrArg String.data h
  have hlen := congrArg List.length hdat
  rw [show (stringifyFilterResult r).data = lbrace ::
      (quoteStr "filteredOutSensors" ++ ':' :: printStrArr r.filteredOutSensors ++
       ',' :: quoteStr "filteredInSensors" ++ ':' :: printStrArr r.filteredInSensors ++
       ',' :: quoteStr "hiddenCountsMap" ++ ':' :: printNatObj r.hiddenCountsMap) ++
      [rbrace] from rfl] at hlen
  simp at hlen

theorem getItem_setItem_self (store : List (String × String)) (k v : String) :
    getItem (setItem store k v) k = some v := by
  unfold getItem setItem
  cases h : lookupA store k with
  | none =>
    dsimp only
    rw [lookupA_append, h]
    simp [lookupA]
  | some w =>
    dsimp only
    rw [lookupA_map_replace_self, h]
    rfl

/-- C9: cache round-trip.  With the static-file tier missing, looking up
a filter name right after its selection result was serialized and stored
in LocalStorage hits the stored-data branch (the stored string is
nonempty, hence truthy), `JSON.parse`s it back, and returns the very
same result, leaving the store unchanged. -/
theorem c9_cache_round_trip (store : List (String × String)) (filterName : String)
    (dataArray : List Sensor) (zoomLevel : Nat)
    (kmeansOutcome : Nat → Option (List Nat × List (ℚ × ℚ)))
    (r : FilterResult) (hwf : wellFormedResult r) :
    filterOverlappingRosesKmeans none
      (setItem store (cacheKeyOf filterName) (stringifyFilterResult r))
      filterName dataArray zoomLevel kmeansOutcome =
      .ok (r, setItem store (cacheKeyOf filterName) (stringifyFilterResult r)) := by
  obtain ⟨h1, h2, h3⟩ := hwf
  unfold filterOverlappingRosesKmeans
  dsimp only
  rw [getItem_setItem_self]
  dsimp only
  rw [if_neg (stringifyFilterResult_ne_empty r)]
  rw [parseFilterResult_roundtrip r
    (fun s hs c hc => (h1 s hs c hc).1)
    (fun s hs c hc => (h2 s hs c hc).1)
    (fun e he c hc => (h3 e he c hc).1)]

theorem c9_cache_round_trip_witness :
    filterOverlappingRosesKmeans none
      (setItem [] (cacheKeyOf "f") (stringifyFilterResult ⟨[], [], []⟩))
      "f" [] 0 (fun _ => none) =
      .ok ((⟨[], [], []⟩ : FilterResult),
        setItem [] (cacheKeyOf "f") (stringifyFilterResult ⟨[], [], []⟩)) :=
  c9_cache_round_trip [] "f" [] 0 (fun _ => none) ⟨[], [], []⟩
    ⟨fun s hs => absurd hs (by simp), fun s hs => absurd hs (by simp),
     fun e he => absurd he (by simp)⟩
